import Mathlib

/-!
Verification development for the SCR prompt generator's document ingestion
and knowledge-extraction pipeline (src/main.py, src/knowledge/database.py,
src/knowledge/models.py, src/parsers/base_parser.py, src/config/settings.py).

The Python code is shallowly embedded: pure functions become Lean functions,
the SQLite-backed knowledge base becomes an explicit `Store` value threaded
through the orchestrator, Python floats for the heuristic scores become
rationals, `datetime.now()` becomes an explicit logical-clock argument, and
the file system / network / hashlib environment becomes explicit function
arguments (`fs`, `digest`).  The regular-expression matching done with
Python's `re` module is embedded by a small backtracking matcher over a
sequence-of-elements pattern representation that realises Python semantics
(leftmost match, greedy/lazy repetition with backtracking, IGNORECASE,
word boundaries) for exactly the fixed patterns appearing in the source.
-/

namespace SCR

/-! ## Python string primitives (`str.strip`, `str.split`, `str.lower`, slicing) -/

/-- Whitespace characters recognised by Python's `str.strip()` / `str.split()`
and by the regex class `\s` (ASCII subset; the repository's inputs are ASCII
or Latin text where the non-ASCII code points are never whitespace). -/
def isPyWs (c : Char) : Bool :=
  c == ' ' || c == '\t' || c == '\n' || c == '\r' ||
  c == Char.ofNat 11 || c == Char.ofNat 12

/-- Python `str.strip()` on a character list. -/
def pyStripL (s : List Char) : List Char :=
  ((s.dropWhile isPyWs).reverse.dropWhile isPyWs).reverse

/-- Python `str.strip()`. -/
def pyStrip (s : String) : String :=
  String.mk (pyStripL s.data)

/-- Python `str.split()` with no argument: split on whitespace runs,
discarding empty fields (hence leading/trailing whitespace).  Fuel-based
recursion (the fuel bounds the number of steps; each step consumes at least
one character, so `length + 1` fuel is always enough). -/
def pySplitAux : Nat → List Char → List (List Char)
  | 0, _ => []
  | _ + 1, [] => []
  | fuel + 1, c :: cs =>
    if isPyWs c then pySplitAux fuel cs
    else
      (c :: cs).takeWhile (fun d => !isPyWs d) ::
        pySplitAux fuel ((c :: cs).dropWhile (fun d => !isPyWs d))

/-- Python `str.split()` on a character list. -/
def pySplitL (s : List Char) : List (List Char) :=
  pySplitAux (s.length + 1) s

/-- Python `str.split()` returning strings. -/
def pySplit (s : String) : List String :=
  (pySplitL s.data).map String.mk

/-- Boolean test that `pat` is a prefix of `s`. -/
def listStarts : List Char → List Char → Bool
  | [], _ => true
  | _ :: _, [] => false
  | p :: ps, c :: cs => p == c && listStarts ps cs

/-- Python `str.lower()` (ASCII case folding; accented letters in the fixed
French keyword lists are already lower case in both the code and the data
compared against, so ASCII folding is faithful here). -/
def pyLowerL (s : List Char) : List Char :=
  s.map Char.toLower

/-- Substring containment (Python's `in` on strings, SQLite `LIKE '%p%'`
for patterns without wildcards). -/
def containsSub (pat s : List Char) : Bool :=
  decide (pat <:+: s)

/-- Count of non-overlapping occurrences of `pat` in `s`, scanning left to
right (Python `str.count`). -/
def countOccAux : Nat → List Char → List Char → Nat
  | 0, _, _ => 0
  | _ + 1, _, [] => 0
  | fuel + 1, pat, c :: cs =>
    if listStarts pat (c :: cs) then
      1 + countOccAux fuel pat ((c :: cs).drop pat.length)
    else
      countOccAux fuel pat cs

/-- Count of non-overlapping occurrences of a nonempty pattern. -/
def countOcc (pat s : List Char) : Nat :=
  countOccAux (s.length + 1) pat s

/-- Collapse every maximal whitespace run to a single space:
Python `re.sub(r'\s+', ' ', s)` (fuel-based recursion as above). -/
def collapseWsAux : Nat → List Char → List Char
  | 0, _ => []
  | _ + 1, [] => []
  | fuel + 1, c :: cs =>
    if isPyWs c then ' ' :: collapseWsAux fuel (cs.dropWhile isPyWs)
    else c :: collapseWsAux fuel cs

/-- Collapse whitespace runs, `re.sub(r'\s+', ' ', s)`. -/
def collapseWsL (s : List Char) : List Char :=
  collapseWsAux (s.length + 1) s

/-! ## Enumerations from src/config/settings.py -/

/-- Document types (`DocumentType` enum). -/
inductive DocumentType where
  | REGULATION_EU
  | DIRECTIVE
  | EIOPA_GUIDELINES
  | TECHNICAL_STANDARDS
  | INDUSTRY_PAPER
  | INTERNAL_DOC
  | ACADEMIC_PAPER
deriving DecidableEq, Repr

/-- The string `.value` of each `DocumentType` member. -/
def DocumentType.value : DocumentType → String
  | .REGULATION_EU => "regulation_eu"
  | .DIRECTIVE => "directive"
  | .EIOPA_GUIDELINES => "eiopa_guidelines"
  | .TECHNICAL_STANDARDS => "technical_standards"
  | .INDUSTRY_PAPER => "industry_paper"
  | .INTERNAL_DOC => "internal_doc"
  | .ACADEMIC_PAPER => "academic_paper"

/-- SCR modules (`SCRModule` enum), the fixed 10-value vocabulary. -/
inductive SCRModule where
  | SPREAD
  | INTEREST_RATE
  | EQUITY
  | CURRENCY
  | CONCENTRATION
  | MARKET_GLOBAL
  | COUNTERPARTY
  | OPERATIONAL
  | LIFE
  | NON_LIFE
deriving DecidableEq, Repr, Fintype

/-- The string `.value` of each `SCRModule` member. -/
def SCRModule.value : SCRModule → String
  | .SPREAD => "spread"
  | .INTEREST_RATE => "interest_rate"
  | .EQUITY => "equity"
  | .CURRENCY => "currency"
  | .CONCENTRATION => "concentration"
  | .MARKET_GLOBAL => "market_global"
  | .COUNTERPARTY => "counterparty"
  | .OPERATIONAL => "operational"
  | .LIFE => "life"
  | .NON_LIFE => "non_life"

/-! ## A small backtracking regex matcher

The source applies Python `re.finditer` / `re.search` with a fixed set of
patterns.  Each of those patterns is a plain sequence of: case-(in)sensitive
literals, a two-literal alternation, bounded/unbounded character-class
repetitions (greedy or lazy), and word boundaries; capture groups span
contiguous sub-sequences.  The matcher below implements exactly that
fragment with Python semantics: the pattern elements are tried in order,
each element enumerates its possible consumptions in preference order
(longest first when greedy, shortest first when lazy) and the first
combination that lets the rest of the pattern succeed wins. -/

/-- Python regex `\w` (ASCII: the repository's patterns and inputs). -/
def isWordChar (c : Char) : Bool :=
  c.isAlpha || c.isDigit || c == '_'

/-- Character comparison: case-insensitive when `ci` is true
(`re.IGNORECASE`, ASCII folding). -/
def chEq (ci : Bool) (a b : Char) : Bool :=
  if ci then a.toLower == b.toLower else a == b

/-- One pattern element. -/
inductive SRE where
  /-- a literal string -/
  | lit : List Char → SRE
  /-- alternation of two literals, left preferred (`a|b`) -/
  | alt2 : List Char → List Char → SRE
  /-- character class repetition: predicate, min count, optional max count,
  greedy flag (`true` = greedy, `false` = lazy) -/
  | cls : (Char → Bool) → Nat → Option Nat → Bool → SRE
  /-- word boundary `\b` -/
  | wb : SRE

/-- A pattern is a sequence of elements, each optionally assigned to a
capture-group index. -/
abbrev RPat := List (SRE × Option Nat)

/-- Consume a literal (under case flag `ci`), returning the consumed input
characters and the rest. -/
def litStrip (ci : Bool) : List Char → List Char → Option (List Char × List Char)
  | [], s => some ([], s)
  | _ :: _, [] => none
  | p :: ps, c :: cs =>
    if chEq ci p c then
      (litStrip ci ps cs).map (fun cr => (c :: cr.1, cr.2))
    else none

/-- Length of the longest prefix of `s` whose characters all satisfy `p`. -/
def runLen (p : Char → Bool) : List Char → Nat
  | [] => 0
  | c :: cs => if p c then runLen p cs + 1 else 0

/-- Candidate consumption counts between `lo` and `hi`, in preference
order: decreasing when greedy, increasing when lazy. -/
def countRange (lo hi : Nat) (greedy : Bool) : List Nat :=
  if greedy then (List.range (hi - lo + 1)).map (fun i => hi - i)
  else (List.range (hi - lo + 1)).map (fun i => lo + i)

/-- Candidate ways a single element can consume a prefix of `s`
(`prev` is the character just before `s`, for `\b`).  Each candidate is
`(consumed, rest)`, listed in Python's preference order. -/
def candidates (ci : Bool) (e : SRE) (prev : Option Char) (s : List Char) :
    List (List Char × List Char) :=
  match e with
  | .lit l => ((litStrip ci l s).map (fun cr => [cr])).getD []
  | .alt2 a b =>
    ((litStrip ci a s).map (fun cr => [cr])).getD [] ++
      ((litStrip ci b s).map (fun cr => [cr])).getD []
  | .cls p lo hi g =>
    let m := runLen p s
    let hi' := min m (hi.getD m)
    if lo ≤ hi' then (countRange lo hi' g).map (fun k => (s.take k, s.drop k))
    else []
  | .wb =>
    let wPrev := match prev with | some c => isWordChar c | none => false
    let wNext := match s.head? with | some c => isWordChar c | none => false
    if wPrev != wNext then [([], s)] else []

/-- The character preceding the rest of the input after consuming `con`. -/
def lastOpt (con : List Char) (prev : Option Char) : Option Char :=
  match con.getLast? with
  | some c => some c
  | none => prev

/-- Match a pattern sequence against a prefix of `s`; returns the capture
pieces `(group index, consumed characters)` in order and the rest of the
input.  Backtracks over each element's candidates in preference order.
`fuel` bounds the sequence length (callers pass `pat.length + 1`). -/
def matchSeq (ci : Bool) : Nat → RPat → Option Char → List Char →
    Option (List (Nat × List Char) × List Char)
  | 0, _, _, _ => none
  | _ + 1, [], _, s => some ([], s)
  | fuel + 1, (e, cap) :: rest, prev, s =>
    ((candidates ci e prev s).map (fun cr =>
      (matchSeq ci fuel rest (lastOpt cr.1 prev) cr.2).map (fun pr =>
        ((match cap with
          | some k => (k, cr.1) :: pr.1
          | none => pr.1),
          pr.2)))).findSome? id

/-- Concatenation of the pieces captured for group `k`. -/
def getCap (caps : List (Nat × List Char)) (k : Nat) : List Char :=
  (caps.filter (fun p => p.1 == k)).foldr (fun p acc => p.2 ++ acc) []

/-- One match: start offset, end offset, capture pieces. -/
structure RMatch where
  start : Nat
  stop : Nat
  caps : List (Nat × List Char)
deriving Repr

/-- The `re.finditer` scan: try the pattern at every position from left to
right; on a match, record it and resume at the match's end (advancing one
position on an empty match, as Python does). -/
def scanAux (ci : Bool) (pat : RPat) : Nat → Option Char → List Char → Nat → List RMatch
  | 0, _, _, _ => []
  | fuel + 1, prev, s, pos =>
    match matchSeq ci (pat.length + 1) pat prev s with
    | some (caps, rest) =>
      let consumed := s.length - rest.length
      if consumed == 0 then
        { start := pos, stop := pos, caps := caps } ::
          (match s with
           | [] => []
           | c :: cs => scanAux ci pat fuel (some c) cs (pos + 1))
      else
        { start := pos, stop := pos + consumed, caps := caps } ::
          scanAux ci pat fuel (lastOpt (s.take consumed) prev) rest (pos + consumed)
    | none =>
      match s with
      | [] => []
      | c :: cs => scanAux ci pat fuel (some c) cs (pos + 1)

/-- All non-overlapping matches of `pat` in `s` (`re.finditer`). -/
def findAll (ci : Bool) (pat : RPat) (s : List Char) : List RMatch :=
  scanAux ci pat (s.length + 1) none s 0

/-- First match of `pat` in `s`, if any (`re.search`). -/
def searchFirst (ci : Bool) (pat : RPat) (s : List Char) : Option RMatch :=
  (findAll ci pat s).head?

/-! ## Signal Extractor: regulatory article extraction
(src/parsers/base_parser.py, `extract_regulatory_articles`) -/

/-- Regex class `[a-z]` under `re.IGNORECASE` (matches either case). -/
def lowAlCI (c : Char) : Bool :=
  c.toLower.isLower

/-- Regex `.` without `re.DOTALL`: any character except a newline. -/
def notNl (c : Char) : Bool :=
  c != '\n'

/-- Pattern `Article\s+(\d+[a-z]?)\b`. -/
def artP1 : RPat :=
  [(.lit "Article".data, none), (.cls isPyWs 1 none true, none),
   (.cls Char.isDigit 1 none true, some 1), (.cls lowAlCI 0 (some 1) true, some 1),
   (.wb, none)]

/-- Pattern `Art\.\s+(\d+[a-z]?)\b`. -/
def artP2 : RPat :=
  [(.lit "Art.".data, none), (.cls isPyWs 1 none true, none),
   (.cls Char.isDigit 1 none true, some 1), (.cls lowAlCI 0 (some 1) true, some 1),
   (.wb, none)]

/-- Pattern `Article\s+(\d+[a-z]?)\s*\([^)]+\)`. -/
def artP3 : RPat :=
  [(.lit "Article".data, none), (.cls isPyWs 1 none true, none),
   (.cls Char.isDigit 1 none true, some 1), (.cls lowAlCI 0 (some 1) true, some 1),
   (.cls isPyWs 0 none true, none), (.lit "(".data, none),
   (.cls (fun c => c != ')') 1 none true, none), (.lit ")".data, none)]

/-- Pattern `(?:Règlement|Regulation).*?(\d+/\d+)`. -/
def artP4 : RPat :=
  [(.alt2 "Règlement".data "Regulation".data, none), (.cls notNl 0 none false, none),
   (.cls Char.isDigit 1 none true, some 1), (.lit "/".data, some 1),
   (.cls Char.isDigit 1 none true, some 1)]

/-- Pattern `Directive.*?(\d+/\d+/CE)`. -/
def artP5 : RPat :=
  [(.lit "Directive".data, none), (.cls notNl 0 none false, none),
   (.cls Char.isDigit 1 none true, some 1), (.lit "/".data, some 1),
   (.cls Char.isDigit 1 none true, some 1), (.lit "/CE".data, some 1)]

/-- The ordered list of article reference patterns. -/
def articlePatterns : List RPat :=
  [artP1, artP2, artP3, artP4, artP5]

/-- All raw group-1 captures of the article patterns, in pattern order
(the loop over `patterns` with `re.finditer`). -/
def extractArticlesRaw (content : List Char) : List (List Char) :=
  (articlePatterns.map (fun pat =>
    (findAll true pat content).map (fun m => getCap m.caps 1))).flatten

/-- Python `set()` accumulation: keep the first occurrence of each value. -/
def dedupKeepFirst (l : List (List Char)) : List (List Char) :=
  l.foldl (fun acc a => if a ∈ acc then acc else acc ++ [a]) []

/-- Python string comparison (`<=` by code points). -/
def lexLe : List Char → List Char → Bool
  | [], _ => true
  | _ :: _, [] => false
  | a :: as, b :: bs => if a == b then lexLe as bs else decide (a < b)

/-- The sort key `(len(x), x)` of `sorted(..., key=lambda x: (len(x), x))`. -/
def keyLe (a b : List Char) : Bool :=
  decide (a.length < b.length) || (a.length == b.length && lexLe a b)

/-- Insertion step of insertion sort. -/
def insertLe (le : α → α → Bool) (a : α) : List α → List α
  | [] => [a]
  | b :: bs => if le a b then a :: b :: bs else b :: insertLe le a bs

/-- Insertion sort; models Python `sorted` (the keys are distinct after
deduplication, so any correct sort produces the same list). -/
def insSort (le : α → α → Bool) : List α → List α
  | [] => []
  | a :: as => insertLe le a (insSort le as)

/-- `BaseDocumentParser.extract_regulatory_articles`: collect group-1
captures of the five patterns, strip, keep the nonempty ones of length at
most 10, deduplicate via a set, and sort by `(length, lexicographic)`. -/
def extract_regulatory_articles (content : String) : List String :=
  let arts := (extractArticlesRaw content.data).map pyStripL
  let kept := arts.filter (fun a => !a.isEmpty && decide (a.length ≤ 10))
  (insSort keyLe (dedupKeepFirst kept)).map String.mk

/-! ## Data model (src/knowledge/models.py)

Timestamps (`datetime.now()`) are modelled by an explicit logical clock of
type `Nat`; scores (Python floats holding small decimal fractions) are
modelled by rationals.  The open `metadata` dict of `DocumentSource` (an
extractor-statistics map never read by any in-scope operation) is omitted. -/

/-- Result of a content extractor: the normalized text plus the optional
document-metadata title used by `_extract_title`. -/
structure ContentData where
  text_content : String
  metaTitle : Option String := none
deriving Repr, DecidableEq

/-- The `DocumentSource` dataclass. -/
structure DocumentSource where
  id : String
  title : String
  doc_type : DocumentType
  url : Option String := none
  file_path : Option String := none
  publication_date : Option Nat := none
  regulatory_articles : List String := []
  scr_modules : List SCRModule := []
  language : String := "fr"
  reliability_score : ℚ := 4/5
  last_updated : Nat := 0
  content_hash : String := ""
deriving Repr, DecidableEq

/-- The language values accepted by `DocumentSource.__post_init__`. -/
def supportedLangs : List String :=
  ["fr", "en", "de", "es", "it"]

/-- `DocumentSource.__post_init__`: raise `ValueError` when
`reliability_score` is outside `[0, 1]`; silently coerce an unsupported
language to `"fr"`. -/
def mkDocumentSource (d : DocumentSource) : Except String DocumentSource :=
  if ¬ (0 ≤ d.reliability_score ∧ d.reliability_score ≤ 1) then
    .error "reliability_score doit etre entre 0 et 1"
  else
    .ok { d with language := if d.language ∈ supportedLangs then d.language else "fr" }

/-- The `SCRConcept` dataclass. -/
structure SCRConcept where
  concept_name : String
  scr_module : SCRModule
  definition : String
  id : Option Nat := none
  formula : Option String := none
  regulatory_article : Option String := none
  source_document_id : Option String := none
  examples : List String := []
  tags : List String := []
  created_at : Nat := 0
  updated_at : Nat := 0
  confidence_score : ℚ := 4/5
deriving Repr, DecidableEq

/-- `SCRConcept.add_example`: append the stripped example when the stripped
example is nonempty and the raw example is not already present.  The code
tests membership of the raw string but appends the stripped string. -/
def SCRConcept.add_example (c : SCRConcept) (ex : String) (now : Nat) : SCRConcept :=
  if pyStrip ex ≠ "" ∧ ex ∉ c.examples then
    { c with examples := c.examples ++ [pyStrip ex], updated_at := now }
  else c

/-- AI providers (`AIProvider` enum; values irrelevant to the claims). -/
inductive AIProvider where
  | CLAUDE_SONNET_4 | CLAUDE_OPUS_4 | GPT_4 | GPT_4_TURBO | GEMINI_PRO
deriving Repr, DecidableEq

/-- Expertise levels (`ExpertiseLevel` enum). -/
inductive ExpertiseLevel where
  | JUNIOR | CONFIRMED | EXPERT | REGULATION_SPECIALIST
deriving Repr, DecidableEq

/-- The `PromptConfig` dataclass (raw field values, before
`__post_init__`). -/
structure PromptConfig where
  ai_provider : AIProvider
  expertise_level : ExpertiseLevel
  scr_module : SCRModule
  language : String := "fr"
  output_format : String := "technical_sheet"
  include_examples : Bool := true
  include_formulas : Bool := true
  include_regulatory_refs : Bool := true
  max_length : Int := 3000
  custom_requirements : List String := []
  context_level : String := "high"
  technical_depth : Int := 3
deriving Repr, DecidableEq

/-- `PromptConfig.__post_init__`: an out-of-range `technical_depth` is reset
to 3, an unknown `context_level` is reset to `"high"`, and `max_length` is
clamped to `[500, 10000]`.  Construction never fails. -/
def PromptConfig.normalize (c : PromptConfig) : PromptConfig :=
  { c with
    technical_depth :=
      if 1 ≤ c.technical_depth ∧ c.technical_depth ≤ 5 then c.technical_depth else 3,
    context_level :=
      if c.context_level ∈ ["low", "medium", "high"] then c.context_level else "high",
    max_length :=
      if c.max_length < 500 then 500
      else if c.max_length > 10000 then 10000
      else c.max_length }

/-! ## Signal Extractor heuristics (src/main.py) -/

/-- The base reliability score per document type
(`_calculate_reliability_score`'s `type_scores`; the dict covers every
enum member, so its `0.5` default is never used). -/
def typeScore : DocumentType → ℚ
  | .REGULATION_EU => 1
  | .DIRECTIVE => 19/20
  | .EIOPA_GUIDELINES => 9/10
  | .TECHNICAL_STANDARDS => 17/20
  | .INDUSTRY_PAPER => 7/10
  | .INTERNAL_DOC => 3/5
  | .ACADEMIC_PAPER => 3/4

/-- `_calculate_reliability_score`: base score by type; +0.1 when more than
10 whitespace-separated words contain the substring `"article"`
(case-insensitively); +0.05 when the word count exceeds 5000, −0.1 when it
is below 500; clamped to `[0.1, 1.0]`. -/
def calculate_reliability_score (text_content : String) (doc_type : DocumentType) : ℚ :=
  let score := typeScore doc_type
  let article_count :=
    ((pySplitL text_content.data).filter
      (fun w => containsSub "article".data (pyLowerL w))).length
  let score := if article_count > 10 then score + 1/10 else score
  let word_count := (pySplitL text_content.data).length
  let score :=
    if word_count > 5000 then score + 1/20
    else if word_count < 500 then score - 1/10
    else score
  min (max score (1/10)) 1

/-- Modelled from the spec (claim C5's wording): the article bonus applies
when the raw text contains more than 10 case-insensitive occurrences of the
substring `"article"`, word boundaries not required.  Kept separate from
`calculate_reliability_score` (which follows the source) so the two can be
compared. -/
def reliabilityScoreClaim (text_content : String) (doc_type : DocumentType) : ℚ :=
  let base := typeScore doc_type
  let occurrences := countOcc "article".data (pyLowerL text_content.data)
  let s := base + (if occurrences > 10 then 1/10 else 0)
  let word_count := (pySplitL text_content.data).length
  let s := s + (if word_count > 5000 then 1/20
                else if word_count < 500 then -(1/10) else 0)
  min (max s (1/10)) 1

/-- French indicator words of `_detect_language`. -/
def frenchIndicators : List String :=
  ["règlement", "solvabilité", "assurance", "société", "européenne"]

/-- English indicator words of `_detect_language`. -/
def englishIndicators : List String :=
  ["regulation", "solvency", "insurance", "european", "commission"]

/-- `_detect_language`: count the indicator words present as substrings of
the lowercased text; majority wins, ties default to French. -/
def detect_language (text_content : String) : String :=
  let lower := pyLowerL text_content.data
  let french_count := (frenchIndicators.filter (fun w => containsSub w.data lower)).length
  let english_count := (englishIndicators.filter (fun w => containsSub w.data lower)).length
  if french_count > english_count then "fr"
  else if english_count > french_count then "en"
  else "fr"

/-- Does the locator start with `http://` or `https://`
(the check used for URL routing)? -/
def isUrl (l : String) : Bool :=
  listStarts "http://".data l.data || listStarts "https://".data l.data

/-- Boolean test that `pat` is a suffix of `s`. -/
def listEnds (pat s : List Char) : Bool :=
  listStarts pat.reverse s.reverse

/-- Split on `'\n'` exactly (Python `str.split('\n')`). -/
def splitOnNl : List Char → List (List Char)
  | [] => [[]]
  | c :: cs =>
    if c == '\n' then [] :: splitOnNl cs
    else
      match splitOnNl cs with
      | l :: ls => (c :: l) :: ls
      | [] => [[c]]

/-- Python `str.replace(pat, rep)`: replace every non-overlapping occurrence
left to right (fuel-based recursion; `pat` is nonempty in all uses). -/
def replaceAllAux : Nat → List Char → List Char → List Char → List Char
  | 0, _, _, _ => []
  | _ + 1, [], _, _ => []
  | fuel + 1, c :: cs, pat, rep =>
    if !pat.isEmpty && listStarts pat (c :: cs) then
      rep ++ replaceAllAux fuel ((c :: cs).drop pat.length) pat rep
    else
      c :: replaceAllAux fuel cs pat rep

/-- Python `str.replace` on strings. -/
def strReplace (s pat rep : String) : String :=
  String.mk (replaceAllAux (s.data.length + 1) s.data pat.data rep.data)

/-- `urllib.parse.urlparse(...).netloc` for `http(s)://` URLs: the part
between the scheme separator and the next `/`, `?` or `#`. -/
def urlNetloc (u : String) : String :=
  let after :=
    if listStarts "http://".data u.data then u.data.drop 7
    else if listStarts "https://".data u.data then u.data.drop 8
    else u.data
  String.mk (after.takeWhile (fun c => c != '/' && c != '?' && c != '#'))

/-- `pathlib.PurePath(p).name`: the final path component (trailing slashes
ignored). -/
def pathName (p : String) : String :=
  let l := (p.data.reverse.dropWhile (fun c => c == '/')).reverse
  String.mk ((l.reverse.takeWhile (fun c => c != '/')).reverse)

/-- `pathlib.PurePath(name).stem`: the name without its suffix, where the
suffix starts at the last `.` when that dot is neither the first nor the
last character of the name. -/
def pathStem (name : String) : String :=
  let n := name.data
  let afterDot := n.reverse.takeWhile (fun c => c != '.')
  if afterDot.length == n.length then name
  else
    let i := n.length - afterDot.length - 1
    if 0 < i ∧ i < n.length - 1 then String.mk (n.take i) else name

/-- `_extract_source_name`: for URLs, the netloc with every `www.` removed
and dots replaced by underscores, truncated to 20 characters; for local
paths, the file stem truncated to 20 characters. -/
def extract_source_name (l : String) : String :=
  if isUrl l then
    let domain := strReplace (urlNetloc l) "www." ""
    String.mk ((strReplace domain "." "_").data.take 20)
  else
    String.mk ((pathStem (pathName l)).data.take 20)

/-- The title-indicator keywords of `_extract_title`. -/
def titleKeywords : List String :=
  ["règlement", "directive", "scr", "solvabilité", "solvency",
   "eiopa", "guidelines", "article", "commission", "délégué"]

/-- `_extract_title`: prefer a nonempty metadata title whose stripped form
is longer than 5 characters; else the first of the first 15 nonblank
stripped lines with length in `[10, 200]` containing a title keyword; else
a generic title from the source locator. -/
def extract_title (cd : ContentData) (source : String) : String :=
  let fromMeta : Option String :=
    match cd.metaTitle with
    | some t =>
      if t ≠ "" ∧ (pyStrip t).length > 5 then some (pyStrip t) else none
    | none => none
  match fromMeta with
  | some t => t
  | none =>
    let lines := ((splitOnNl cd.text_content.data).map pyStripL).filter (fun l => !l.isEmpty)
    let cand := (lines.take 15).find? (fun line =>
      decide (10 ≤ line.length) && decide (line.length ≤ 200) &&
        titleKeywords.any (fun kw => containsSub kw.data (pyLowerL line)))
    match cand with
    | some line => String.mk line
    | none =>
      if isUrl source then "Document web - " ++ extract_source_name source
      else "Document - " ++ pathStem (pathName source)

/-! ## Knowledge Store (src/knowledge/database.py)

The SQLite base becomes an in-memory store: `documents` is the keyed table
(`id` is the primary key, writes are `INSERT OR REPLACE`), `concepts` is
insert-only with auto-increment ids starting at 1. -/

/-- The store state. -/
structure Store where
  documents : List (String × DocumentSource) := []
  concepts : List SCRConcept := []
  nextConceptId : Nat := 1
deriving Repr, DecidableEq

/-- `SCRKnowledgeBase.add_document`: `INSERT OR REPLACE` keyed by `id`
(replace the row with the same primary key, else append).  The model has
no I/O failures, so the write always reports success. -/
def Store.addDocument (st : Store) (d : DocumentSource) : Store :=
  if st.documents.any (fun p => p.1 == d.id) then
    { st with documents := st.documents.map (fun p => if p.1 == d.id then (d.id, d) else p) }
  else
    { st with documents := st.documents ++ [(d.id, d)] }

/-- `SCRKnowledgeBase.add_scr_concept`: insert with a store-assigned
auto-increment id; returns the (always positive) new id. -/
def Store.addConcept (st : Store) (c : SCRConcept) : Nat × Store :=
  (st.nextConceptId,
   { st with
     concepts := st.concepts ++ [{ c with id := some st.nextConceptId }],
     nextConceptId := st.nextConceptId + 1 })

/-- `SCRKnowledgeBase.get_document_by_id`. -/
def Store.getDocumentById (st : Store) (id : String) : Option DocumentSource :=
  (st.documents.find? (fun p => p.1 == id)).map (fun p => p.2)

/-- Total number of stored documents (`SELECT COUNT(*) FROM documents`). -/
def docCount (st : Store) : Nat :=
  st.documents.length

/-- Number of stored document rows carrying a given primary key (always 0
or 1 for stores reachable from an empty one). -/
def countId (st : Store) (id : String) : Nat :=
  (st.documents.filter (fun p => p.1 == id)).length

/-- A JSON string literal for a module value (`json.dumps` quoting; module
values contain no characters needing escapes). -/
def quotedVal (v : List Char) : List Char :=
  Char.ofNat 34 :: v ++ [Char.ofNat 34]

/-- The item list of `json.dumps([...])` with the default `", "` separator. -/
def jsonItems : List SCRModule → List Char
  | [] => []
  | [m] => quotedVal m.value.data
  | m :: m2 :: rest => quotedVal m.value.data ++ ',' :: ' ' :: jsonItems (m2 :: rest)

/-- `json.dumps([m.value for m in scr_modules])`, the serialized form the
`scr_modules` column holds. -/
def jsonModules (ms : List SCRModule) : List Char :=
  '[' :: jsonItems ms ++ [']']

/-- The `ORDER BY reliability_score DESC, publication_date DESC` key (a
missing publication date sorts last under `DESC` in SQLite). -/
def docOrderLe (a b : DocumentSource) : Bool :=
  decide (b.reliability_score < a.reliability_score) ||
    (a.reliability_score == b.reliability_score &&
      match a.publication_date, b.publication_date with
      | some x, some y => decide (y ≤ x)
      | some _, none => true
      | none, some _ => false
      | none, none => true)

/-- `SCRKnowledgeBase.get_documents_by_module`: rows whose serialized
`scr_modules` column matches `LIKE '%value%'` (substring containment; both
sides are lower case, so SQLite's ASCII-case-insensitive `LIKE` coincides
with plain containment), ordered, optionally limited. -/
def Store.get_documents_by_module (st : Store) (m : SCRModule) (limit : Option Nat) :
    List DocumentSource :=
  let rows := st.documents.filter (fun p => containsSub m.value.data (jsonModules p.2.scr_modules))
  let docs := insSort docOrderLe (rows.map (fun p => p.2))
  match limit with
  | none => docs
  | some n => docs.take n

/-! ## Concept Miner (src/main.py, `_auto_extract_concepts`) -/

/-- Regex class `[^.\n]`. -/
def notDotNl (c : Char) : Bool :=
  c != '.' && c != '\n'

/-- Pattern `SCR[_\s]*(\w+)\s*=\s*([^.\n]{10,100})`. -/
def conceptP1 : RPat :=
  [(.lit "SCR".data, none), (.cls (fun c => c == '_' || isPyWs c) 0 none true, none),
   (.cls isWordChar 1 none true, some 1), (.cls isPyWs 0 none true, none),
   (.lit "=".data, none), (.cls isPyWs 0 none true, none),
   (.cls notDotNl 10 (some 100) true, some 2)]

/-- Pattern `([Xx]word[^:]{0,30})\s*[:\-]\s*([^.\n]{10,80})` for a label
keyword (the `[Xx]` alternative is subsumed by `re.IGNORECASE`). -/
def labelPat (word : String) : RPat :=
  [(.lit word.data, some 1), (.cls (fun c => c != ':') 0 (some 30) true, some 1),
   (.cls isPyWs 0 none true, none),
   (.cls (fun c => c == ':' || c == '-') 1 (some 1) true, none),
   (.cls isPyWs 0 none true, none),
   (.cls notDotNl 10 (some 80) true, some 2)]

/-- The ordered concept patterns of `_auto_extract_concepts` (the attached
French type labels are never stored, so they are dropped here). -/
def conceptPatterns : List RPat :=
  [conceptP1, labelPat "facteur", labelPat "coefficient", labelPat "duration",
   labelPat "sensibilité", labelPat "notation", labelPat "rating",
   labelPat "choc", labelPat "stress"]

/-- Pattern `[Aa]rticle\s+(\d+[a-z]?)` used case-sensitively on the context
window (`re.search`, no `IGNORECASE`). -/
def ctxArticlePat : RPat :=
  [(.cls (fun c => c == 'A' || c == 'a') 1 (some 1) true, none),
   (.lit "rticle".data, none), (.cls isPyWs 1 none true, none),
   (.cls Char.isDigit 1 none true, some 1),
   (.cls Char.isLower 0 (some 1) true, some 1)]

/-- Characters rejected inside a candidate definition (HTML/code guard). -/
def badDefChars : List Char :=
  ['<', '>', Char.ofNat 123, Char.ofNat 125]

/-- An accepted concept candidate: cleaned name and definition plus the
nearest regulatory article from the context window. -/
structure ConceptCand where
  concept_name : String
  definition : String
  regulatory_article : Option String
deriving Repr, DecidableEq

/-- The accepted pattern matches of `_auto_extract_concepts`: for each
pattern in order and each match, strip the two captures, apply the quality
filter (name length 3..50, definition length 10..150, no markup
characters), collapse whitespace, and look for an `Article <n>` mention in
the 200-character context window around the match. -/
def acceptedMatches (content : String) : List ConceptCand :=
  (conceptPatterns.map (fun pat =>
    (findAll true pat content.data).filterMap (fun m =>
      let name := pyStripL (getCap m.caps 1)
      let defn := pyStripL (getCap m.caps 2)
      if decide (3 ≤ name.length) && decide (name.length ≤ 50) &&
          decide (10 ≤ defn.length) && decide (defn.length ≤ 150) &&
          !(defn.any (fun c => badDefChars.contains c)) then
        let ctx := (content.data.drop (m.start - 200)).take ((m.stop + 200) - (m.start - 200))
        let art := (searchFirst false ctxArticlePat ctx).map
          (fun am => String.mk (getCap am.caps 1))
        some { concept_name := String.mk (collapseWsL name),
               definition := String.mk (collapseWsL defn),
               regulatory_article := art }
      else none))).flatten

/-- One step of the concept fan-out loop: build the concept for one tagged
module of the owning document, persist it, append it to the extracted list
(the store's ids are always positive, so the `concept_id > 0` check of the
source always passes). -/
def mineStep (doc : DocumentSource) (cand : ConceptCand) (now : Nat)
    (acc : List SCRConcept × Store) (m : SCRModule) : List SCRConcept × Store :=
  let c : SCRConcept :=
    { concept_name := cand.concept_name, scr_module := m,
      definition := cand.definition,
      regulatory_article := cand.regulatory_article,
      source_document_id := some doc.id, created_at := now, updated_at := now }
  let idSt := acc.2.addConcept c
  (acc.1 ++ [{ c with id := some idSt.1 }], idSt.2)

/-- `_auto_extract_concepts`: for each accepted candidate, emit one concept
per SCR module tagged on the owning document, persisting each through the
store. -/
def auto_extract_concepts (doc : DocumentSource) (content : String) (now : Nat)
    (st : Store) : List SCRConcept × Store :=
  (acceptedMatches content).foldl (fun acc cand =>
    doc.scr_modules.foldl (mineStep doc cand now) acc) ([], st)

/-! ## Ingestion Orchestrator (src/main.py, `add_document_source`)

The extraction environment is a function `fs : String → Option ContentData`
(`none` models a missing local file / failed fetch, both of which raise and
are caught by the orchestrator's `except` clause), and the content digest
`hashlib.md5(...).hexdigest()` is a function argument `digest`.  The call
is modelled without caller metadata overrides (the `**metadata` dict empty,
as in the claims).  The returned event list records which downstream
components ran. -/

/-- Pipeline events for observing which components a call reached. -/
inductive Event where
  | signalExtraction
  | documentWrite
  | conceptWrite
deriving Repr, DecidableEq

/-- Parser kinds produced by the `parserFor` factory. -/
inductive ParserKind where
  | pdf
  | html
deriving Repr, DecidableEq

/-- The `create_parser` factory: URL → HTML parser; `.pdf` → PDF parser;
`.html`/`.htm` → HTML parser; anything else raises (`none`). -/
def parserFor (l : String) : Option ParserKind :=
  if isUrl l then some .html
  else
    let low := pyLowerL l.data
    if listEnds ".pdf".data low then some .pdf
    else if listEnds ".html".data low || listEnds ".htm".data low then some .html
    else none

/-- The derived document id
`{doc_type.value}_{source_name}_{content_hash[:8]}`. -/
def derivedDocId (digest : String → String) (text : String) (l : String)
    (doc_type : DocumentType) : String :=
  doc_type.value ++ "_" ++ extract_source_name l ++ "_" ++
    String.mk ((digest text).data.take 8)

/-- `SCRPromptGenerator.add_document_source` (metadata-free call):
parser selection, extraction, hashing, signal extraction, id derivation,
document construction, upsert, then concept mining.  Any raised error
(unsupported locator, missing file, construction failure) is caught and
reported as `false` with the store untouched. -/
def add_document_source (digest : String → String) (fs : String → Option ContentData)
    (now : Nat) (l : String) (doc_type : DocumentType) (scr_modules : List SCRModule)
    (st : Store) : Bool × Store × List Event :=
  match parserFor l with
  | none => (false, st, [])
  | some _ =>
    match fs l with
    | none => (false, st, [])
    | some cd =>
      if cd.text_content = "" then (false, st, [])
      else
        let text := cd.text_content
        let content_hash := digest text
        let regulatory_articles := extract_regulatory_articles text
        let doc_id := derivedDocId digest text l doc_type
        let candidate : DocumentSource :=
          { id := doc_id, title := extract_title cd l, doc_type := doc_type,
            url := if listStarts "http".data l.data then some l else none,
            file_path := if listStarts "http".data l.data then none else some l,
            publication_date := none,
            regulatory_articles := regulatory_articles,
            scr_modules := scr_modules,
            language := detect_language text,
            reliability_score := calculate_reliability_score text doc_type,
            last_updated := now,
            content_hash := content_hash }
        match mkDocumentSource candidate with
        | .error _ => (false, st, [.signalExtraction])
        | .ok doc =>
          let st1 := st.addDocument doc
          let csSt := auto_extract_concepts doc text now st1
          (true, csSt.2,
            [.signalExtraction, .documentWrite] ++ csSt.1.map (fun _ => .conceptWrite))

/-! ## Concrete environment instances used by witnesses

The theorems below quantify over the digest function (the environment's
`hashlib.md5(...).hexdigest()`); witnesses instantiate it with a concrete
32-hex-character digest. -/

/-- A hexadecimal digit character. -/
def hexDigitChar (n : Nat) : Char :=
  if n < 10 then Char.ofNat (48 + n) else Char.ofNat (97 + (n - 10))

/-- A concrete stand-in content digest producing 32 hex characters (the
shape of `hashlib.md5(...).hexdigest()`); used to instantiate the
digest-generic theorems on concrete inputs. -/
def digest0 (s : String) : String :=
  let h := s.data.foldl (fun acc c => (acc * 31 + c.toNat) % (2 ^ 128)) 7
  String.mk ((List.range 32).map (fun i => hexDigitChar (h / 16 ^ i % 16)))

/-- The empty knowledge store (a freshly initialised database). -/
def store0 : Store :=
  { documents := [], concepts := [], nextConceptId := 1 }

/-- Extraction environment for the re-ingestion witness: one local PDF
whose extracted text is fixed. -/
def fsC1 : String → Option ContentData := fun l =>
  if l = "data/regles.pdf" then
    some { text_content := "texte du reglement", metaTitle := none }
  else none

/-- Extraction environment with two distinct locators sharing the same
extracted text (and the same file stem). -/
def fsC2 : String → Option ContentData := fun l =>
  if l = "a/doc.pdf" ∨ l = "b/doc.pdf" then
    some { text_content := "contenu identique du document", metaTitle := none }
  else none

/-- Extraction environment with two distinct locators of distinct stems
sharing the same extracted text. -/
def fsC2b : String → Option ContentData := fun l =>
  if l = "data/normes.pdf" ∨ l = "data/regles.pdf" then
    some { text_content := "contenu identique du document", metaTitle := none }
  else none

/-- A document tagged only with the `NON_LIFE` module. -/
def docC3 : DocumentSource :=
  { id := "internal_doc_note_00000000", title := "note vie",
    doc_type := .INTERNAL_DOC, scr_modules := [.NON_LIFE] }

/-- A store holding only `docC3`. -/
def storeC3 : Store :=
  { documents := [(docC3.id, docC3)], concepts := [], nextConceptId := 1 }

/-- A document tagged with two SCR modules, owning the one-match text of
the concept-miner witness. -/
def docC6 : DocumentSource :=
  { id := "internal_doc_formules_00000000", title := "formules",
    doc_type := .INTERNAL_DOC, scr_modules := [.SPREAD, .EQUITY] }

/-- The document value the orchestrator persists on a successful
metadata-free ingestion: derived id, extracted signals, the caller's
module tags, and the write-time timestamp (this is the `.ok` payload of
the document construction in `add_document_source`). -/
def ingestDoc (digest : String → String) (cd : ContentData) (now : Nat) (l : String)
    (dt : DocumentType) (mods : List SCRModule) : DocumentSource :=
  { id := derivedDocId digest cd.text_content l dt,
    title := extract_title cd l,
    doc_type := dt,
    url := if listStarts "http".data l.data then some l else none,
    file_path := if listStarts "http".data l.data then none else some l,
    publication_date := none,
    regulatory_articles := extract_regulatory_articles cd.text_content,
    scr_modules := mods,
    language := if detect_language cd.text_content ∈ supportedLangs
                then detect_language cd.text_content else "fr",
    reliability_score := calculate_reliability_score cd.text_content dt,
    last_updated := now,
    content_hash := digest cd.text_content }

/-! ## Theorems -/

/-! ### Sorting facts for the article extraction -/

theorem insertLe_perm (le : α → α → Bool) (a : α) (l : List α) :
    (insertLe le a l).Perm (a :: l) := by
  induction l with
  | nil => exact List.Perm.refl _
  | cons b bs ih =>
    unfold insertLe
    split
    · exact List.Perm.refl _
    · exact (List.Perm.cons b ih).trans (List.Perm.swap a b bs)

theorem insSort_perm (le : α → α → Bool) (l : List α) : (insSort le l).Perm l := by
  induction l with
  | nil => exact List.Perm.refl _
  | cons a as ih => exact (insertLe_perm le a (insSort le as)).trans (List.Perm.cons a ih)

theorem insertLe_pairwise {le : α → α → Bool}
    (htot : ∀ a b, le a b = true ∨ le b a = true)
    (htrans : ∀ a b c, le a b = true → le b c = true → le a c = true)
    (a : α) {l : List α} (hl : l.Pairwise (fun x y => le x y = true)) :
    (insertLe le a l).Pairwise (fun x y => le x y = true) := by
  induction l with
  | nil => simp [insertLe]
  | cons b bs ih =>
    rcases List.pairwise_cons.mp hl with ⟨hb, hbs⟩
    unfold insertLe
    split
    case isTrue h =>
      refine List.pairwise_cons.mpr ⟨?_, hl⟩
      intro x hx
      rcases List.mem_cons.mp hx with rfl | hx
      · exact h
      · exact htrans a b x h (hb x hx)
    case isFalse h =>
      refine List.pairwise_cons.mpr ⟨?_, ih hbs⟩
      intro x hx
      rcases List.mem_cons.mp ((insertLe_perm le a bs).mem_iff.mp hx) with hxa | hx'
      · rw [hxa]
        rcases htot a b with h1 | h1
        · exact absurd h1 h
        · exact h1
      · exact hb x hx'

theorem insSort_pairwise {le : α → α → Bool}
    (htot : ∀ a b, le a b = true ∨ le b a = true)
    (htrans : ∀ a b c, le a b = true → le b c = true → le a c = true)
    (l : List α) : (insSort le l).Pairwise (fun x y => le x y = true) := by
  induction l with
  | nil => simp [insSort]
  | cons a as ih => exact insertLe_pairwise htot htrans a ih

theorem lexLe_total : ∀ a b : List Char, lexLe a b = true ∨ lexLe b a = true := by
  intro a
  induction a with
  | nil => intro b; left; rfl
  | cons x xs ih =>
    intro b
    match b with
    | [] => right; rfl
    | y :: ys =>
      by_cases hxy : x = y
      · subst hxy
        simp only [lexLe, beq_self_eq_true, if_true]
        exact ih ys
      · have hbeq : (x == y) = false := beq_eq_false_iff_ne.mpr hxy
        have hbeq' : (y == x) = false := beq_eq_false_iff_ne.mpr (Ne.symm hxy)
        rcases lt_trichotomy x y with h | h | h
        · left
          simp only [lexLe, hbeq, if_false]
          exact decide_eq_true h
        · exact absurd h hxy
        · right
          simp only [lexLe, hbeq', if_false]
          exact decide_eq_true h

theorem lexLe_trans : ∀ a b c : List Char,
    lexLe a b = true → lexLe b c = true → lexLe a c = true := by
  intro a
  induction a with
  | nil => intro b c _ _; rfl
  | cons x xs ih =>
    intro b c hab hbc
    match b, c with
    | [], _ => exact absurd hab (by simp [lexLe])
    | _ :: _, [] => exact absurd hbc (by simp [lexLe])
    | y :: ys, z :: zs =>
      by_cases hxy : x = y <;> by_cases hyz : y = z
      · subst hxy; subst hyz
        simp only [lexLe, beq_self_eq_true, if_true] at hab hbc ⊢
        exact ih ys zs hab hbc
      · subst hxy
        simp only [lexLe, beq_self_eq_true, if_true, beq_eq_false_iff_ne.mpr hyz,
          if_false] at hbc ⊢
        rw [if_neg (by exact fun h => hyz (by simpa using h))]
        exact hbc
      · subst hyz
        simp only [lexLe, beq_eq_false_iff_ne.mpr hxy, if_false] at hab ⊢
        rw [if_neg (by exact fun h => hxy (by simpa using h))]
        exact hab
      · have hab' : x < y := by
          simp only [lexLe, beq_eq_false_iff_ne.mpr hxy, Bool.false_eq_true,
            if_false, decide_eq_true_eq] at hab
          exact hab
        have hbc' : y < z := by
          simp only [lexLe, beq_eq_false_iff_ne.mpr hyz, Bool.false_eq_true,
            if_false, decide_eq_true_eq] at hbc
          exact hbc
        have hxz : x ≠ z := (lt_trans hab' hbc').ne
        simp only [lexLe, beq_eq_false_iff_ne.mpr hxz, if_false]
        exact decide_eq_true (lt_trans hab' hbc')

theorem keyLe_total : ∀ a b : List Char, keyLe a b = true ∨ keyLe b a = true := by
  intro a b
  simp only [keyLe, Bool.or_eq_true, decide_eq_true_eq, Bool.and_eq_true, beq_iff_eq]
  rcases Nat.lt_trichotomy a.length b.length with h | h | h
  · exact Or.inl (Or.inl h)
  · rcases lexLe_total a b with h1 | h1
    · exact Or.inl (Or.inr ⟨h, h1⟩)
    · exact Or.inr (Or.inr ⟨h.symm, h1⟩)
  · exact Or.inr (Or.inl h)

theorem keyLe_trans : ∀ a b c : List Char,
    keyLe a b = true → keyLe b c = true → keyLe a c = true := by
  intro a b c hab hbc
  simp only [keyLe, Bool.or_eq_true, decide_eq_true_eq, Bool.and_eq_true,
    beq_iff_eq] at hab hbc ⊢
  rcases hab with h1 | ⟨h1, h1l⟩ <;> rcases hbc with h2 | ⟨h2, h2l⟩
  · exact Or.inl (Nat.lt_trans h1 h2)
  · exact Or.inl (h2 ▸ h1)
  · exact Or.inl (h1 ▸ h2)
  · exact Or.inr ⟨h1.trans h2, lexLe_trans a b c h1l h2l⟩

/-! ### Deduplication facts -/

theorem foldl_dedup_nodup : ∀ (l acc : List (List Char)), acc.Nodup →
    (l.foldl (fun acc a => if a ∈ acc then acc else acc ++ [a]) acc).Nodup := by
  intro l
  induction l with
  | nil => exact fun acc h => h
  | cons a as ih =>
    intro acc h
    simp only [List.foldl_cons]
    split
    · exact ih acc h
    case isFalse hmem => exact ih _ (by simp [List.nodup_append, h, hmem])

theorem dedupKeepFirst_nodup (l : List (List Char)) : (dedupKeepFirst l).Nodup :=
  foldl_dedup_nodup l [] List.nodup_nil

theorem foldl_dedup_subset : ∀ (l acc : List (List Char)) (x : List Char),
    x ∈ l.foldl (fun acc a => if a ∈ acc then acc else acc ++ [a]) acc →
    x ∈ acc ∨ x ∈ l := by
  intro l
  induction l with
  | nil => exact fun acc x h => Or.inl h
  | cons a as ih =>
    intro acc x h
    simp only [List.foldl_cons] at h
    by_cases hmem : a ∈ acc
    · rw [if_pos hmem] at h
      rcases ih acc x h with h1 | h1
      · exact Or.inl h1
      · exact Or.inr (List.mem_cons_of_mem a h1)
    · rw [if_neg hmem] at h
      rcases ih _ x h with h1 | h1
      · rcases List.mem_append.mp h1 with h2 | h2
        · exact Or.inl h2
        · exact Or.inr (List.mem_cons.mpr (Or.inl (by simpa using h2)))
      · exact Or.inr (List.mem_cons_of_mem a h1)

theorem dedupKeepFirst_subset (l : List (List Char)) (x : List Char)
    (h : x ∈ dedupKeepFirst l) : x ∈ l := by
  rcases foldl_dedup_subset l [] x h with h1 | h1
  · exact absurd h1 (List.not_mem_nil x)
  · exact h1

/-- Claim C4: article extraction discards matched identifiers longer than
10 characters, deduplicates, and returns the result sorted by
`(length, lexicographic)`; it is deterministic, and on text containing
`Article 180`, `Article 181` and `Art. 45` it yields
`["45", "180", "181"]`. -/
theorem C4_article_extraction (content : String) :
    (∀ a ∈ extract_regulatory_articles content, a.length ≤ 10) ∧
    (extract_regulatory_articles content).Nodup ∧
    (extract_regulatory_articles content).Pairwise
      (fun a b => keyLe a.data b.data = true) ∧
    extract_regulatory_articles content = extract_regulatory_articles content ∧
    extract_regulatory_articles "Article 180 Article 181 Art. 45" =
      ["45", "180", "181"] := by
  refine ⟨?_, ?_, ?_, rfl, by decide⟩
  · intro a ha
    unfold extract_regulatory_articles at ha
    rcases List.mem_map.mp ha with ⟨w, hw, rfl⟩
    have hw2 : w ∈ dedupKeepFirst _ := (insSort_perm keyLe _).mem_iff.mp hw
    have hw3 := dedupKeepFirst_subset _ _ hw2
    have hw4 := (List.mem_filter.mp hw3).2
    simp only [Bool.and_eq_true, decide_eq_true_eq] at hw4
    simpa [String.length] using hw4.2
  · unfold extract_regulatory_articles
    refine List.Nodup.map ?_ ?_
    · intro a b h
      injection h
    · exact ((insSort_perm keyLe _).nodup_iff).mpr (dedupKeepFirst_nodup _)
  · unfold extract_regulatory_articles
    exact (insSort_pairwise keyLe_total keyLe_trans _).map _ (fun a b h => h)

/-- The computed reliability score is always within `[0.1, 1]` (hence also
within the `[0, 1]` range `DocumentSource` validation demands). -/
theorem calculate_reliability_score_bounds (text : String) (dt : DocumentType) :
    1/10 ≤ calculate_reliability_score text dt ∧ calculate_reliability_score text dt ≤ 1 := by
  unfold calculate_reliability_score
  exact ⟨le_min (le_max_right _ _) (by norm_num), min_le_right _ _⟩

/-- Claim C8: for every reliability score in `[0, 1]`, `DocumentSource`
construction succeeds (all other fields arbitrary; the language coercion
never fails); for every score strictly below 0 or strictly above 1 it
raises the validation error and no document is produced. -/
theorem C8_document_validation (d : DocumentSource) :
    (0 ≤ d.reliability_score → d.reliability_score ≤ 1 →
      mkDocumentSource d =
        .ok { d with language := if d.language ∈ supportedLangs then d.language else "fr" }) ∧
    ((d.reliability_score < 0 ∨ 1 < d.reliability_score) →
      mkDocumentSource d = .error "reliability_score doit etre entre 0 et 1") := by
  constructor
  · intro h0 h1
    unfold mkDocumentSource
    rw [if_neg (not_not_intro ⟨h0, h1⟩)]
  · intro h
    unfold mkDocumentSource
    rw [if_pos]
    rcases h with h | h
    · exact fun hc => absurd hc.1 (not_le.mpr h)
    · exact fun hc => absurd hc.2 (not_le.mpr h)

/-- Witness for C8: the score `1/2` is accepted (construction yields a
document), the score `3/2` is rejected with the validation error. -/
theorem C8_document_validation_witness :
    ((0:ℚ) ≤ 1/2 ∧ (1/2:ℚ) ≤ 1 ∧
      mkDocumentSource
          { id := "d1", title := "t", doc_type := .INTERNAL_DOC,
            reliability_score := 1/2 } =
        Except.ok
          { id := "d1", title := "t", doc_type := .INTERNAL_DOC,
            reliability_score := 1/2 }) ∧
    (1 < (3/2:ℚ) ∧
      mkDocumentSource
          { id := "d1", title := "t", doc_type := .INTERNAL_DOC,
            reliability_score := 3/2 } =
        Except.error "reliability_score doit etre entre 0 et 1") := by
  constructor
  · refine ⟨by norm_num, by norm_num, ?_⟩
    exact ((C8_document_validation _).1 (by norm_num) (by norm_num)).trans
      (by with_unfolding_all rfl)
  · exact ⟨by norm_num, (C8_document_validation _).2 (Or.inr (by norm_num))⟩

/-- Claim C9 counterexample: `technical_depth = 7` (out of range `[1, 5]`)
is reset to the default 3, not clamped to the nearest bound 5. -/
theorem C9_technical_depth_counterexample :
    (PromptConfig.normalize
        { ai_provider := .CLAUDE_SONNET_4, expertise_level := .EXPERT,
          scr_module := .SPREAD, technical_depth := 7 }).technical_depth = 3 ∧
      (3 : Int) ≠ 5 := by
  exact ⟨by decide, by decide⟩

/-- Claim C9 (amended): `PromptConfig` construction always succeeds;
`max_length` is clamped to the nearest bound of `[500, 10000]`, while an
out-of-range `technical_depth` is reset to the default 3 (not the nearest
bound); both results land in their valid ranges. -/
theorem C9_config_normalization_amended (c : PromptConfig) :
    c.normalize.max_length = max 500 (min c.max_length 10000) ∧
    500 ≤ c.normalize.max_length ∧ c.normalize.max_length ≤ 10000 ∧
    c.normalize.technical_depth =
      (if 1 ≤ c.technical_depth ∧ c.technical_depth ≤ 5 then c.technical_depth else 3) ∧
    1 ≤ c.normalize.technical_depth ∧ c.normalize.technical_depth ≤ 5 := by
  unfold PromptConfig.normalize
  refine ⟨?_, ?_, ?_, ?_, ?_, ?_⟩ <;> simp only [] <;> split_ifs <;> omega

/-- Claim C10 counterexample: adding the example `" x"` (whitespace-padded)
twice to a fresh concept stores `["x", "x"]` — the membership check uses
the raw string but the append stores the stripped string, so the
collection is not deduplicated and differs from a single add. -/
theorem C10_add_example_counterexample :
    ((((
        { concept_name := "Choc action", scr_module := .EQUITY,
          definition := "choc de base" } : SCRConcept).add_example " x" 1).add_example
          " x" 2).examples = ["x", "x"]) ∧
    (((
        { concept_name := "Choc action", scr_module := .EQUITY,
          definition := "choc de base" } : SCRConcept).add_example " x" 1).examples = ["x"]) ∧
    (["x", "x"] : List String) ≠ ["x"] := by
  refine ⟨by decide, by decide, by decide⟩

/-- Claim C10 (amended): for examples without leading or trailing
whitespace (`strip(e) = e`), adding twice equals adding once, and the add
preserves deduplication (no two equal entries). -/
theorem C10_add_example_amended (c : SCRConcept) (e : String) (t1 t2 : Nat)
    (h : pyStrip e = e) :
    ((c.add_example e t1).add_example e t2).examples = (c.add_example e t1).examples ∧
    (c.examples.Nodup → ((c.add_example e t1).examples).Nodup) := by
  unfold SCRConcept.add_example
  by_cases h1 : pyStrip e ≠ "" ∧ e ∉ c.examples
  · rw [if_pos h1]
    have h2 : ¬ (pyStrip e ≠ "" ∧
        e ∉ ({ c with examples := c.examples ++ [pyStrip e], updated_at := t1 } :
          SCRConcept).examples) := by
      rw [h]
      simp
    rw [if_neg h2]
    refine ⟨rfl, fun hnd => ?_⟩
    rw [h]
    simp only [List.nodup_append, List.nodup_cons, List.nodup_nil]
    exact ⟨hnd, by simp, by simpa using h1.2⟩
  · rw [if_neg h1, if_neg h1]
    exact ⟨rfl, fun hnd => hnd⟩

/-- Witness for C10 (amended): with the already-stripped example `"x"`,
the second add is a no-op. -/
theorem C10_add_example_amended_witness :
    pyStrip "x" = "x" ∧
    (((
        { concept_name := "Choc action", scr_module := .EQUITY,
          definition := "choc de base" } : SCRConcept).add_example "x" 1).add_example
          "x" 2).examples =
      ((
        { concept_name := "Choc action", scr_module := .EQUITY,
          definition := "choc de base" } : SCRConcept).add_example "x" 1).examples := by
  exact ⟨by decide, (C10_add_example_amended _ "x" 1 2 (by decide)).1⟩

set_option maxRecDepth 40000 in
/-- Claim C5 counterexample: on six words `"articlearticle"` the raw text
holds 12 occurrences of the substring `"article"` (more than 10, so the
claim's formula adds the bonus), but the code counts words containing the
substring (6, no bonus) — the scores differ. -/
theorem C5_reliability_counterexample :
    reliabilityScoreClaim (String.join (List.replicate 6 "articlearticle "))
        .INTERNAL_DOC ≠
      calculate_reliability_score (String.join (List.replicate 6 "articlearticle "))
        .INTERNAL_DOC := by
  have h1 : reliabilityScoreClaim (String.join (List.replicate 6 "articlearticle "))
      .INTERNAL_DOC = 3/5 := by with_unfolding_all rfl
  have h2 : calculate_reliability_score (String.join (List.replicate 6 "articlearticle "))
      .INTERNAL_DOC = 1/2 := by with_unfolding_all rfl
  rw [h1, h2]
  norm_num

set_option maxRecDepth 40000 in
/-- Claim C5 (amended): the reliability score equals the type's base score,
plus 0.1 when more than 10 whitespace-separated words contain `"article"`
case-insensitively (not: occurrences of the substring in the raw text),
plus 0.05 for more than 5000 words or minus 0.1 for fewer than 500 words,
clamped to `[0.1, 1.0]`; a 300-word internal document scores 0.5. -/
theorem C5_reliability_amended (text : String) (dt : DocumentType) :
    calculate_reliability_score text dt =
      min (max (typeScore dt +
        (if ((pySplitL text.data).filter
            (fun w => containsSub "article".data (pyLowerL w))).length > 10
         then 1/10 else 0) +
        (if (pySplitL text.data).length > 5000 then 1/20
         else if (pySplitL text.data).length < 500 then -(1/10) else 0)) (1/10)) 1 ∧
    1/10 ≤ calculate_reliability_score text dt ∧
    calculate_reliability_score text dt ≤ 1 ∧
    calculate_reliability_score (String.join (List.replicate 300 "m ")) .INTERNAL_DOC
      = 1/2 := by
  refine ⟨?_, (calculate_reliability_score_bounds text dt).1,
    (calculate_reliability_score_bounds text dt).2, by with_unfolding_all rfl⟩
  unfold calculate_reliability_score
  by_cases hA : ((pySplitL text.data).filter
      (fun w => containsSub "article".data (pyLowerL w))).length > 10 <;>
    by_cases hB : (pySplitL text.data).length > 5000 <;>
      by_cases hC : (pySplitL text.data).length < 500 <;>
        simp only [hA, hB, hC, if_true, if_false] <;> ring_nf

/-! ### Substring facts for the module-membership query (claim C3)

A module value is a run of lower-case letters and underscores; the JSON
serialization separates the quoted values by characters outside that
alphabet, so a value can occur as a substring only inside one of the
serialized values. -/

/-- The character alphabet of module values. -/
def modChar (c : Char) : Bool :=
  c.isLower || c == '_'

theorem modVal_ne_nil : ∀ m : SCRModule, m.value.data ≠ [] := by decide

theorem modVal_chars : ∀ m : SCRModule, ∀ c ∈ m.value.data, modChar c = true := by decide

/-- A prefix is in particular an infix. -/
theorem isPre_isInf {pat xs : List Char} (h : pat <+: xs) : pat <:+: xs := by
  obtain ⟨t, ht⟩ := h
  exact ⟨[], t, by simpa using ht⟩

/-- A pattern of `p`-characters that is a prefix of `xs ++ c :: ys` with
`c` outside `p` is already a prefix of `xs`. -/
theorem prefixAllP_barrier {p : Char → Bool} :
    ∀ {pat xs ys : List Char} {c : Char},
      (∀ ch ∈ pat, p ch = true) → p c = false →
      pat <+: xs ++ c :: ys → pat <+: xs := by
  intro pat
  induction pat with
  | nil => intro xs ys c _ _ _; exact List.nil_prefix
  | cons q qs ih =>
    intro xs ys c hall hc h
    match xs with
    | [] =>
      obtain ⟨t, ht⟩ := h
      simp only [List.nil_append, List.cons_append] at ht
      have hqc : q = c := (List.cons.injEq _ _ _ _).mp ht |>.1
      have hq := hall q (List.mem_cons_self q qs)
      rw [hqc, hc] at hq
      exact absurd hq (by simp)
    | x :: xs' =>
      obtain ⟨t, ht⟩ := h
      simp only [List.cons_append] at ht
      obtain ⟨hqx, ht'⟩ := (List.cons.injEq _ _ _ _).mp ht
      have hqs : qs <+: xs' ++ c :: ys := ⟨t, ht'⟩
      obtain ⟨t2, ht2⟩ := ih (fun ch hch => hall ch (List.mem_cons_of_mem q hch)) hc hqs
      exact ⟨t2, by rw [hqx]; simp [ht2]⟩

/-- Occurrences of a nonempty pattern whose characters all satisfy `p`
cannot straddle a character outside `p`: being an infix of
`xs ++ c :: ys` is being an infix of `xs` or of `ys`. -/
theorem infixAllP_barrier {p : Char → Bool} {pat : List Char} (_hne : pat ≠ [])
    (hall : ∀ ch ∈ pat, p ch = true) {c : Char} (hc : p c = false) :
    ∀ (xs ys : List Char), (pat <:+: xs ++ c :: ys ↔ pat <:+: xs ∨ pat <:+: ys) := by
  intro xs ys
  constructor
  · rintro ⟨s, t, hst⟩
    induction s generalizing xs with
    | nil =>
      simp only [List.nil_append] at hst
      left
      exact isPre_isInf (prefixAllP_barrier hall hc ⟨t, hst⟩)
    | cons a s' ih =>
      match xs with
      | [] =>
        simp only [List.cons_append, List.nil_append] at hst
        obtain ⟨rfl, hrest⟩ := (List.cons.injEq _ _ _ _).mp hst
        right
        exact ⟨s', t, hrest⟩
      | x :: xs' =>
        simp only [List.cons_append] at hst
        obtain ⟨rfl, hrest⟩ := (List.cons.injEq _ _ _ _).mp hst
        rcases ih xs' hrest with h1 | h1
        · left
          obtain ⟨s2, t2, h2⟩ := h1
          exact ⟨a :: s2, t2, by simp [h2]⟩
        · right
          exact h1
  · rintro (⟨s, t, hst⟩ | ⟨s, t, hst⟩)
    · exact ⟨s, t ++ c :: ys, by rw [← hst]; simp⟩
    · exact ⟨xs ++ c :: s, t, by rw [← hst]; simp⟩

theorem infix_nil_iff {pat : List Char} : pat <:+: ([] : List Char) ↔ pat = [] := by
  constructor
  · rintro ⟨s, t, hst⟩
    rcases List.append_eq_nil.mp hst with ⟨h1, _⟩
    exact (List.append_eq_nil.mp h1).2
  · rintro rfl
    exact ⟨[], [], rfl⟩

/-- Which module values occur inside which: only reflexively, plus
`"life"` inside `"non_life"`. -/
theorem value_infix_value : ∀ m m' : SCRModule,
    (m.value.data <:+: m'.value.data ↔
      m = m' ∨ (m = .LIFE ∧ m' = .NON_LIFE)) := by
  decide

/-- Barrier instances for the serialization separators. -/
theorem modChar_sep : modChar '[' = false ∧ modChar ']' = false ∧
    modChar (Char.ofNat 34) = false ∧ modChar ',' = false ∧ modChar ' ' = false := by
  decide

/-- A module value occurs in a serialized (quoted) value exactly when it
occurs in the value itself. -/
theorem value_infix_quotedVal (m m' : SCRModule) :
    m.value.data <:+: quotedVal m'.value.data ↔
      m = m' ∨ (m = .LIFE ∧ m' = .NON_LIFE) := by
  have hne := modVal_ne_nil m
  have hall := modVal_chars m
  have h1 : quotedVal m'.value.data =
      [] ++ Char.ofNat 34 :: (m'.value.data ++ Char.ofNat 34 :: []) := by
    simp [quotedVal]
  rw [h1, infixAllP_barrier hne hall modChar_sep.2.2.1 [] _,
    infixAllP_barrier hne hall modChar_sep.2.2.1 m'.value.data [],
    infix_nil_iff, value_infix_value m m']
  simp [hne]

/-- A module value occurs in the serialized item list exactly when it
occurs in one of the serialized values. -/
theorem value_infix_jsonItems (m : SCRModule) :
    ∀ ms : List SCRModule,
      (m.value.data <:+: jsonItems ms ↔
        m ∈ ms ∨ (m = .LIFE ∧ SCRModule.NON_LIFE ∈ ms)) := by
  have hne := modVal_ne_nil m
  have hall := modVal_chars m
  intro ms
  induction ms with
  | nil =>
    simp only [jsonItems, infix_nil_iff]
    simp [hne]
  | cons m' rest ih =>
    match rest with
    | [] =>
      show m.value.data <:+: quotedVal m'.value.data ↔ _
      rw [value_infix_quotedVal m m']
      simp only [List.mem_singleton]
      constructor
      · rintro (h | ⟨h1, h2⟩)
        · exact Or.inl h
        · exact Or.inr ⟨h1, h2.symm⟩
      · rintro (h | ⟨h1, h2⟩)
        · exact Or.inl h
        · exact Or.inr ⟨h1, h2.symm⟩
    | m'' :: rest' =>
      show m.value.data <:+:
        quotedVal m'.value.data ++ ',' :: ' ' :: jsonItems (m'' :: rest') ↔ _
      rw [infixAllP_barrier hne hall modChar_sep.2.2.2.1 (quotedVal m'.value.data)
        (' ' :: jsonItems (m'' :: rest'))]
      have h2 : ' ' :: jsonItems (m'' :: rest') =
          [] ++ ' ' :: jsonItems (m'' :: rest') := by simp
      rw [h2, infixAllP_barrier hne hall modChar_sep.2.2.2.2 [] (jsonItems (m'' :: rest')),
        infix_nil_iff, value_infix_quotedVal m m', ih]
      constructor
      · rintro ((h | h) | h | h)
        · exact Or.inl (by simp [h])
        · rcases h with ⟨rfl, rfl⟩
          exact Or.inr ⟨rfl, by simp⟩
        · exact absurd h hne
        · rcases h with h | ⟨rfl, h⟩
          · exact Or.inl (List.mem_cons_of_mem m' h)
          · exact Or.inr ⟨rfl, List.mem_cons_of_mem m' h⟩
      · rintro (h | ⟨rfl, h⟩)
        · rcases List.mem_cons.mp h with rfl | h
          · exact Or.inl (Or.inl rfl)
          · exact Or.inr (Or.inr (Or.inl h))
        · rcases List.mem_cons.mp h with heq | h
          · exact Or.inl (Or.inr ⟨rfl, heq.symm⟩)
          · exact Or.inr (Or.inr (Or.inr ⟨rfl, h⟩))

/-- The `LIKE '%value%'` membership test against the serialized module
set, characterised: it matches exactly the documents tagged with the
module, except that querying `LIFE` also matches documents tagged
`NON_LIFE` (the value `"life"` is a substring of `"non_life"`). -/
theorem value_infix_jsonModules (m : SCRModule) (ms : List SCRModule) :
    m.value.data <:+: jsonModules ms ↔
      m ∈ ms ∨ (m = .LIFE ∧ SCRModule.NON_LIFE ∈ ms) := by
  have hne := modVal_ne_nil m
  have hall := modVal_chars m
  have h1 : jsonModules ms = [] ++ '[' :: (jsonItems ms ++ ']' :: []) := by
    simp [jsonModules]
  rw [h1, infixAllP_barrier hne hall modChar_sep.1 [] _,
    infixAllP_barrier hne hall modChar_sep.2.1 (jsonItems ms) [],
    infix_nil_iff, value_infix_jsonItems m ms]
  simp [hne]

/-- Claim C3 counterexample: the store holds a single document tagged only
with `NON_LIFE`, yet `get_documents_by_module LIFE` returns it — the
substring test over the serialized module set over-matches because
`"life"` is a substring of `"non_life"` within the fixed vocabulary. -/
theorem C3_life_overmatch_counterexample :
    (storeC3.get_documents_by_module .LIFE none).map (fun d => d.id) = [docC3.id] ∧
    SCRModule.LIFE ∉ docC3.scr_modules := by
  constructor
  · with_unfolding_all rfl
  · decide

/-- Claim C3 (amended): `get_documents_by_module m` returns exactly the
stored documents whose module set contains `m`, except that the query for
`LIFE` additionally returns documents tagged with `NON_LIFE` (the only
substring collision in the 10-value vocabulary); no other module
over-matches. -/
theorem C3_module_query_amended (st : Store) (m : SCRModule) (d : DocumentSource) :
    d ∈ st.get_documents_by_module m none ↔
      (∃ key, (key, d) ∈ st.documents ∧
        (m ∈ d.scr_modules ∨ (m = .LIFE ∧ SCRModule.NON_LIFE ∈ d.scr_modules))) := by
  unfold Store.get_documents_by_module
  constructor
  · intro h
    have h1 := (insSort_perm docOrderLe _).mem_iff.mp h
    rcases List.mem_map.mp h1 with ⟨p, hp, rfl⟩
    have hp2 := List.mem_filter.mp hp
    refine ⟨p.1, by simpa using hp2.1, ?_⟩
    have h3 : m.value.data <:+: jsonModules p.2.scr_modules :=
      of_decide_eq_true (by simpa [containsSub] using hp2.2)
    exact (value_infix_jsonModules m _).mp h3
  · rintro ⟨key, hmem, hcond⟩
    apply (insSort_perm docOrderLe _).mem_iff.mpr
    apply List.mem_map.mpr
    refine ⟨(key, d), List.mem_filter.mpr ⟨hmem, ?_⟩, rfl⟩
    simpa [containsSub] using decide_eq_true ((value_infix_jsonModules m _).mpr hcond)

/-! ### Store facts: the upsert write and the key counts -/

theorem filterKey_eq_nil {l : List (String × DocumentSource)} {id : String}
    (h : id ∉ l.map Prod.fst) : l.filter (fun p => p.1 == id) = [] := by
  induction l with
  | nil => rfl
  | cons p ps ih =>
    simp only [List.map_cons, List.mem_cons] at h
    push_neg at h
    rw [List.filter_cons, if_neg (by simp [beq_eq_false_iff_ne.mpr (Ne.symm h.1)])]
    exact ih h.2

theorem any_key_iff (l : List (String × DocumentSource)) (id : String) :
    l.any (fun p => p.1 == id) = true ↔ id ∈ l.map Prod.fst := by
  simp only [List.any_eq_true, List.mem_map, beq_iff_eq]

theorem addDocument_documents_mem (st : Store) (d : DocumentSource)
    (h : st.documents.any (fun p => p.1 == d.id) = true) :
    (st.addDocument d).documents =
      st.documents.map (fun p => if p.1 == d.id then (d.id, d) else p) := by
  unfold Store.addDocument
  rw [if_pos h]

theorem addDocument_documents_fresh (st : Store) (d : DocumentSource)
    (h : st.documents.any (fun p => p.1 == d.id) = false) :
    (st.addDocument d).documents = st.documents ++ [(d.id, d)] := by
  unfold Store.addDocument
  rw [if_neg (by simp [h])]

theorem keys_map_replace (l : List (String × DocumentSource)) (d : DocumentSource) :
    (l.map (fun p => if p.1 == d.id then (d.id, d) else p)).map Prod.fst =
      l.map Prod.fst := by
  induction l with
  | nil => rfl
  | cons p ps ih =>
    simp only [List.map_cons]
    rw [ih]
    by_cases hp : (p.1 == d.id) = true
    · rw [if_pos hp]
      simp [eq_of_beq hp]
    · rw [if_neg hp]

theorem find_key_map_replace (l : List (String × DocumentSource)) (d : DocumentSource)
    (h : l.any (fun p => p.1 == d.id) = true) :
    (l.map (fun p => if p.1 == d.id then (d.id, d) else p)).find?
      (fun p => p.1 == d.id) = some (d.id, d) := by
  induction l with
  | nil => simp at h
  | cons p ps ih =>
    simp only [List.map_cons]
    by_cases hp : (p.1 == d.id) = true
    · rw [if_pos hp]
      exact List.find?_cons_of_pos _ (by simp)
    · rw [if_neg hp]
      rw [List.find?_cons_of_neg _ (by simp [hp])]
      apply ih
      simpa [List.any_cons, hp] using h

theorem find_key_append_fresh (l : List (String × DocumentSource)) (d : DocumentSource)
    (h : l.any (fun p => p.1 == d.id) = false) :
    (l ++ [(d.id, d)]).find? (fun p => p.1 == d.id) = some (d.id, d) := by
  induction l with
  | nil =>
    rw [List.nil_append]
    exact List.find?_cons_of_pos _ (by simp)
  | cons p ps ih =>
    simp only [List.any_cons, Bool.or_eq_false_iff] at h
    rw [List.cons_append, List.find?_cons_of_neg _ (by simp [h.1])]
    exact ih h.2

theorem addDocument_lookup (st : Store) (d : DocumentSource) :
    (st.addDocument d).getDocumentById d.id = some d := by
  unfold Store.getDocumentById
  by_cases h : st.documents.any (fun p => p.1 == d.id) = true
  · rw [addDocument_documents_mem st d h, find_key_map_replace _ _ h]
    rfl
  · simp only [Bool.not_eq_true] at h
    rw [addDocument_documents_fresh st d h, find_key_append_fresh _ _ h]
    rfl

theorem countId_eq_keys_count : ∀ (l : List (String × DocumentSource)) (id : String),
    (l.filter (fun p => p.1 == id)).length = (l.map Prod.fst).count id := by
  intro l id
  induction l with
  | nil => rfl
  | cons p ps ih =>
    simp only [List.filter_cons, List.map_cons, List.count_cons]
    by_cases hp : (p.1 == id) = true
    · rw [if_pos hp]
      simp [ih, hp]
    · rw [if_neg hp]
      simp [ih, hp]

theorem addDocument_keys_mem (st : Store) (d : DocumentSource)
    (h : st.documents.any (fun p => p.1 == d.id) = true) :
    (st.addDocument d).documents.map Prod.fst = st.documents.map Prod.fst := by
  rw [addDocument_documents_mem st d h, keys_map_replace]

theorem addDocument_keys_fresh (st : Store) (d : DocumentSource)
    (h : st.documents.any (fun p => p.1 == d.id) = false) :
    (st.addDocument d).documents.map Prod.fst = st.documents.map Prod.fst ++ [d.id] := by
  rw [addDocument_documents_fresh st d h]
  simp

theorem addDocument_count_mem (st : Store) (d : DocumentSource)
    (h : st.documents.any (fun p => p.1 == d.id) = true) :
    docCount (st.addDocument d) = docCount st := by
  unfold docCount
  rw [addDocument_documents_mem st d h, List.length_map]

theorem addDocument_count_fresh (st : Store) (d : DocumentSource)
    (h : st.documents.any (fun p => p.1 == d.id) = false) :
    docCount (st.addDocument d) = docCount st + 1 := by
  unfold docCount
  rw [addDocument_documents_fresh st d h, List.length_append]
  rfl

theorem addDocument_nodup (st : Store) (d : DocumentSource)
    (hnd : (st.documents.map Prod.fst).Nodup) :
    ((st.addDocument d).documents.map Prod.fst).Nodup := by
  by_cases h : st.documents.any (fun p => p.1 == d.id) = true
  · rw [addDocument_keys_mem st d h]
    exact hnd
  · simp only [Bool.not_eq_true] at h
    rw [addDocument_keys_fresh st d h]
    simp only [List.nodup_append, List.nodup_cons, List.nodup_nil]
    refine ⟨hnd, by simp, ?_⟩
    intro x hx
    simp only [List.mem_singleton]
    intro hxd
    subst hxd
    have hx2 := (any_key_iff _ _).mpr hx
    rw [h] at hx2
    exact absurd hx2 (by simp)

theorem countId_addDocument_self (st : Store) (d : DocumentSource)
    (hnd : (st.documents.map Prod.fst).Nodup) :
    countId (st.addDocument d) d.id = 1 := by
  unfold countId
  rw [countId_eq_keys_count]
  by_cases h : st.documents.any (fun p => p.1 == d.id) = true
  · rw [addDocument_keys_mem st d h]
    have hmem : d.id ∈ st.documents.map Prod.fst := (any_key_iff _ _).mp h
    have h1 := List.nodup_iff_count_le_one.mp hnd d.id
    have h2 := List.count_pos_iff.mpr hmem
    omega
  · simp only [Bool.not_eq_true] at h
    rw [addDocument_keys_fresh st d h]
    rw [List.count_append]
    have h0 : (st.documents.map Prod.fst).count d.id = 0 := by
      rw [List.count_eq_zero]
      intro hm
      have hx2 := (any_key_iff _ _).mpr hm
      rw [h] at hx2
      exact absurd hx2 (by simp)
    simp [h0]

theorem countId_addDocument_fresh_other (st : Store) (d : DocumentSource) (id : String)
    (h : st.documents.any (fun p => p.1 == d.id) = false) (hne : d.id ≠ id) :
    countId (st.addDocument d) id = countId st id := by
  unfold countId
  rw [countId_eq_keys_count, countId_eq_keys_count,
    addDocument_keys_fresh st d h, List.count_append]
  have : ([d.id].count id) = 0 := by
    rw [List.count_eq_zero]
    simpa using Ne.symm hne
  simp [this]

/-! ### Concept-mining facts -/

theorem mineStep_documents (doc : DocumentSource) (cand : ConceptCand) (now : Nat)
    (acc : List SCRConcept × Store) (m : SCRModule) :
    (mineStep doc cand now acc m).2.documents = acc.2.documents := rfl

theorem foldl_mineStep_documents (doc : DocumentSource) (cand : ConceptCand) (now : Nat) :
    ∀ (mods : List SCRModule) (acc : List SCRConcept × Store),
      ((mods.foldl (mineStep doc cand now) acc).2).documents = acc.2.documents := by
  intro mods
  induction mods with
  | nil => intro acc; rfl
  | cons m ms ih =>
    intro acc
    rw [List.foldl_cons]
    exact (ih _).trans (mineStep_documents doc cand now acc m)

theorem auto_extract_concepts_documents (doc : DocumentSource) (content : String)
    (now : Nat) (st : Store) :
    (auto_extract_concepts doc content now st).2.documents = st.documents := by
  unfold auto_extract_concepts
  generalize acceptedMatches content = cands
  suffices h : ∀ (cands : List ConceptCand) (acc : List SCRConcept × Store),
      ((cands.foldl (fun acc cand =>
        doc.scr_modules.foldl (mineStep doc cand now) acc) acc).2).documents =
      acc.2.documents by
    exact h cands ([], st)
  intro cands
  induction cands with
  | nil => intro acc; rfl
  | cons cand cs ih =>
    intro acc
    rw [List.foldl_cons]
    exact (ih _).trans (foldl_mineStep_documents doc cand now doc.scr_modules acc)

theorem foldl_mineStep_spec (doc : DocumentSource) (cand : ConceptCand) (now : Nat) :
    ∀ (mods : List SCRModule) (acc : List SCRConcept × Store),
      ((mods.foldl (mineStep doc cand now) acc).1).map (fun c => c.scr_module) =
        acc.1.map (fun c => c.scr_module) ++ mods ∧
      (∀ c ∈ (mods.foldl (mineStep doc cand now) acc).1,
        c ∈ acc.1 ∨ c.source_document_id = some doc.id) := by
  intro mods
  induction mods with
  | nil => exact fun acc => ⟨by simp, fun c hc => Or.inl hc⟩
  | cons m ms ih =>
    intro acc
    simp only [List.foldl_cons]
    have h := ih (mineStep doc cand now acc m)
    constructor
    · rw [h.1]
      show (mineStep doc cand now acc m).1.map (fun c => c.scr_module) ++ ms = _
      unfold mineStep
      simp
    · intro c hc
      rcases h.2 c hc with h1 | h1
      · unfold mineStep at h1
        simp only [List.mem_append, List.mem_singleton] at h1
        rcases h1 with h2 | h2
        · exact Or.inl h2
        · right
          rw [h2]
      · exact Or.inr h1

/-! ### The successful ingestion path -/

/-- When the locator routes to a parser, extraction yields nonempty text,
and no metadata overrides are given, `add_document_source` reports success
and the resulting document table is the input table upserted with the
derived document (concept mining touches only the concept table). -/
theorem mkDocumentSource_ok (d : DocumentSource) (h0 : 0 ≤ d.reliability_score)
    (h1 : d.reliability_score ≤ 1) :
    mkDocumentSource d =
      .ok { d with language := if d.language ∈ supportedLangs then d.language else "fr" } := by
  unfold mkDocumentSource
  rw [if_neg (not_not_intro ⟨h0, h1⟩)]

set_option maxHeartbeats 2000000 in
theorem add_document_source_spec (digest : String → String)
    (fs : String → Option ContentData) (now : Nat) (l : String) (dt : DocumentType)
    (mods : List SCRModule) (st : Store) (cd : ContentData)
    (hp : (parserFor l).isSome = true)
    (hfs : fs l = some cd) (htext : cd.text_content ≠ "") :
    (add_document_source digest fs now l dt mods st).1 = true ∧
    (add_document_source digest fs now l dt mods st).2.1.documents =
      (st.addDocument (ingestDoc digest cd now l dt mods)).documents := by
  have hbounds := calculate_reliability_score_bounds cd.text_content dt
  obtain ⟨k, hk⟩ := Option.isSome_iff_exists.mp hp
  unfold add_document_source
  simp only [hk, hfs]
  rw [if_neg htext,
    mkDocumentSource_ok _ (le_trans (by norm_num) hbounds.1) hbounds.2]
  exact ⟨rfl, (auto_extract_concepts_documents _ _ _ _).trans rfl⟩

/-- Claim C1: re-ingesting byte-identical extracted text from the same
locator with the same document type derives the same id both times; the
second write replaces the first record, so the document count is unchanged,
exactly one row carries the id, and the stored `last_updated` advances from
the first write time to the second. -/
theorem C1_reingest_replaces (digest : String → String)
    (fs : String → Option ContentData) (l : String) (dt : DocumentType)
    (mods : List SCRModule) (st0 : Store) (t1 t2 : Nat) (cd : ContentData)
    (hnd : (st0.documents.map Prod.fst).Nodup)
    (hp : (parserFor l).isSome = true)
    (hfs : fs l = some cd) (htext : cd.text_content ≠ "") (ht : t1 < t2) :
    (add_document_source digest fs t1 l dt mods st0).1 = true ∧
    (add_document_source digest fs t2 l dt mods
      (add_document_source digest fs t1 l dt mods st0).2.1).1 = true ∧
    docCount (add_document_source digest fs t2 l dt mods
        (add_document_source digest fs t1 l dt mods st0).2.1).2.1 =
      docCount (add_document_source digest fs t1 l dt mods st0).2.1 ∧
    countId (add_document_source digest fs t2 l dt mods
        (add_document_source digest fs t1 l dt mods st0).2.1).2.1
      (derivedDocId digest cd.text_content l dt) = 1 ∧
    ∃ d1 d2,
      (add_document_source digest fs t1 l dt mods st0).2.1.getDocumentById
        (derivedDocId digest cd.text_content l dt) = some d1 ∧
      (add_document_source digest fs t2 l dt mods
          (add_document_source digest fs t1 l dt mods st0).2.1).2.1.getDocumentById
        (derivedDocId digest cd.text_content l dt) = some d2 ∧
      d1.id = derivedDocId digest cd.text_content l dt ∧
      d2.id = derivedDocId digest cd.text_content l dt ∧
      d1.last_updated = t1 ∧ d2.last_updated = t2 ∧
      d1.last_updated < d2.last_updated := by
  have spec1 := add_document_source_spec digest fs t1 l dt mods st0 cd hp hfs htext
  set s1 := (add_document_source digest fs t1 l dt mods st0).2.1 with hs1
  have spec2 := add_document_source_spec digest fs t2 l dt mods s1 cd hp hfs htext
  set s2 := (add_document_source digest fs t2 l dt mods s1).2.1 with hs2
  set doc1 := ingestDoc digest cd t1 l dt mods with hdoc1
  set doc2 := ingestDoc digest cd t2 l dt mods with hdoc2
  have hid1 : doc1.id = derivedDocId digest cd.text_content l dt := rfl
  have hid2 : doc2.id = derivedDocId digest cd.text_content l dt := rfl
  -- the id is present in s1
  have hany1 : s1.documents.any (fun p => p.1 == doc2.id) = true := by
    rw [spec1.2]
    have := addDocument_lookup st0 doc1
    unfold Store.getDocumentById at this
    rcases hfind : (st0.addDocument doc1).documents.find? (fun p => p.1 == doc1.id) with
      _ | p
    · rw [hfind] at this
      exact absurd this (by simp)
    · have hmem := List.mem_of_find?_eq_some hfind
      have hprop := List.find?_some hfind
      apply List.any_eq_true.mpr
      exact ⟨p, hmem, hprop⟩
  have hnd1 : (s1.documents.map Prod.fst).Nodup := by
    rw [spec1.2]
    exact addDocument_nodup st0 doc1 hnd
  refine ⟨spec1.1, spec2.1, ?_, ?_, ?_⟩
  · -- document count unchanged
    have h1 : docCount s2 = docCount (s1.addDocument doc2) := by
      unfold docCount
      rw [spec2.2]
    rw [h1]
    exact addDocument_count_mem s1 doc2 hany1
  · -- exactly one row with the id
    have h1 : countId s2 (derivedDocId digest cd.text_content l dt) =
        countId (s1.addDocument doc2) doc2.id := by
      unfold countId
      rw [spec2.2, hid2]
    rw [h1]
    exact countId_addDocument_self s1 doc2 hnd1
  · -- the stored record is replaced and its timestamp advances
    refine ⟨doc1, doc2, ?_, ?_, rfl, rfl, rfl, rfl, ht⟩
    · show s1.getDocumentById (derivedDocId digest cd.text_content l dt) = some doc1
      have h1 : s1.getDocumentById (derivedDocId digest cd.text_content l dt) =
          (st0.addDocument doc1).getDocumentById doc1.id := by
        unfold Store.getDocumentById
        rw [spec1.2, hid1]
      rw [h1]
      exact addDocument_lookup st0 doc1
    · have h1 : s2.getDocumentById (derivedDocId digest cd.text_content l dt) =
          (s1.addDocument doc2).getDocumentById doc2.id := by
        unfold Store.getDocumentById
        rw [spec2.2, hid2]
      rw [h1]
      exact addDocument_lookup s1 doc2

/-- Witness for C1: ingesting the same local PDF (fixed extracted text)
twice at times 0 and 1 succeeds both times, the count is unchanged and the
stored record's `last_updated` advances. -/
theorem C1_reingest_replaces_witness :
    (0 : Nat) < 1 ∧ ("texte du reglement" : String) ≠ "" ∧
    ((add_document_source digest0 fsC1 0 "data/regles.pdf" .EIOPA_GUIDELINES
        [.SPREAD] store0).1 = true ∧
     (add_document_source digest0 fsC1 1 "data/regles.pdf" .EIOPA_GUIDELINES [.SPREAD]
       (add_document_source digest0 fsC1 0 "data/regles.pdf" .EIOPA_GUIDELINES
         [.SPREAD] store0).2.1).1 = true ∧
     docCount (add_document_source digest0 fsC1 1 "data/regles.pdf" .EIOPA_GUIDELINES
         [.SPREAD]
         (add_document_source digest0 fsC1 0 "data/regles.pdf" .EIOPA_GUIDELINES
           [.SPREAD] store0).2.1).2.1 =
       docCount (add_document_source digest0 fsC1 0 "data/regles.pdf" .EIOPA_GUIDELINES
         [.SPREAD] store0).2.1 ∧
     countId (add_document_source digest0 fsC1 1 "data/regles.pdf" .EIOPA_GUIDELINES
         [.SPREAD]
         (add_document_source digest0 fsC1 0 "data/regles.pdf" .EIOPA_GUIDELINES
           [.SPREAD] store0).2.1).2.1
       (derivedDocId digest0 "texte du reglement" "data/regles.pdf" .EIOPA_GUIDELINES)
       = 1 ∧
     ∃ d1 d2,
       (add_document_source digest0 fsC1 0 "data/regles.pdf" .EIOPA_GUIDELINES
           [.SPREAD] store0).2.1.getDocumentById
         (derivedDocId digest0 "texte du reglement" "data/regles.pdf" .EIOPA_GUIDELINES)
         = some d1 ∧
       (add_document_source digest0 fsC1 1 "data/regles.pdf" .EIOPA_GUIDELINES [.SPREAD]
           (add_document_source digest0 fsC1 0 "data/regles.pdf" .EIOPA_GUIDELINES
             [.SPREAD] store0).2.1).2.1.getDocumentById
         (derivedDocId digest0 "texte du reglement" "data/regles.pdf" .EIOPA_GUIDELINES)
         = some d2 ∧
       d1.id = derivedDocId digest0 "texte du reglement" "data/regles.pdf"
         .EIOPA_GUIDELINES ∧
       d2.id = derivedDocId digest0 "texte du reglement" "data/regles.pdf"
         .EIOPA_GUIDELINES ∧
       d1.last_updated = 0 ∧ d2.last_updated = 1 ∧
       d1.last_updated < d2.last_updated) :=
  ⟨by decide, by decide,
    C1_reingest_replaces digest0 fsC1 "data/regles.pdf" .EIOPA_GUIDELINES [.SPREAD]
      store0 0 1 { text_content := "texte du reglement", metaTitle := none }
      (by decide) (by decide) (by decide) (by decide) (by decide)⟩

/-! ### Distinct source locators (claim C2) -/

theorem string_data_inj {a b : String} (h : a.data = b.data) : a = b := by
  cases a
  cases b
  exact congrArg String.mk h

/-- Distinct derived source names force distinct derived document ids
(the other id components are identical). -/
theorem derivedDocId_ne (digest : String → String) (text : String) (l1 l2 : String)
    (dt : DocumentType) (h : extract_source_name l1 ≠ extract_source_name l2) :
    derivedDocId digest text l1 dt ≠ derivedDocId digest text l2 dt := by
  intro heq
  apply h
  unfold derivedDocId at heq
  have h2 := congrArg String.data heq
  have hd : ∀ a b : String, (a ++ b).data = a.data ++ b.data := fun a b => rfl
  simp only [hd] at h2
  have h3 := List.append_cancel_right h2
  have h4 := List.append_cancel_right h3
  have h5 := List.append_cancel_left h4
  exact string_data_inj h5

/-- Claim C2 counterexample: `a/doc.pdf` and `b/doc.pdf` are distinct
locators, yet with identical extracted content they derive the same
document id (both source names are the stem `doc`), so ingesting both
leaves one stored record, not two. -/
theorem C2_same_stem_counterexample :
    ("a/doc.pdf" : String) ≠ "b/doc.pdf" ∧
    derivedDocId digest0 "contenu identique du document" "a/doc.pdf" .INTERNAL_DOC =
      derivedDocId digest0 "contenu identique du document" "b/doc.pdf" .INTERNAL_DOC ∧
    docCount (add_document_source digest0 fsC2 1 "b/doc.pdf" .INTERNAL_DOC [.SPREAD]
        (add_document_source digest0 fsC2 0 "a/doc.pdf" .INTERNAL_DOC [.SPREAD]
          store0).2.1).2.1 = 1 := by
  refine ⟨by decide, by with_unfolding_all rfl, by with_unfolding_all rfl⟩

/-- Claim C2 (amended): ingesting identical extracted content of the same
doc type from two distinct locators whose derived source names differ
yields two distinct document ids and two independently stored records
(both ids fresh for the initial store). -/
theorem C2_distinct_sources_amended (digest : String → String)
    (fs : String → Option ContentData) (l1 l2 : String) (dt : DocumentType)
    (mods : List SCRModule) (st0 : Store) (t : Nat) (cd : ContentData)
    (hnd : (st0.documents.map Prod.fst).Nodup)
    (hp1 : (parserFor l1).isSome = true) (hp2 : (parserFor l2).isSome = true)
    (hfs1 : fs l1 = some cd) (hfs2 : fs l2 = some cd) (htext : cd.text_content ≠ "")
    (hname : extract_source_name l1 ≠ extract_source_name l2)
    (hfresh1 : derivedDocId digest cd.text_content l1 dt ∉ st0.documents.map Prod.fst)
    (hfresh2 : derivedDocId digest cd.text_content l2 dt ∉ st0.documents.map Prod.fst) :
    derivedDocId digest cd.text_content l1 dt ≠
      derivedDocId digest cd.text_content l2 dt ∧
    (add_document_source digest fs t l1 dt mods st0).1 = true ∧
    (add_document_source digest fs t l2 dt mods
      (add_document_source digest fs t l1 dt mods st0).2.1).1 = true ∧
    docCount (add_document_source digest fs t l2 dt mods
        (add_document_source digest fs t l1 dt mods st0).2.1).2.1 = docCount st0 + 2 ∧
    countId (add_document_source digest fs t l2 dt mods
        (add_document_source digest fs t l1 dt mods st0).2.1).2.1
      (derivedDocId digest cd.text_content l1 dt) = 1 ∧
    countId (add_document_source digest fs t l2 dt mods
        (add_document_source digest fs t l1 dt mods st0).2.1).2.1
      (derivedDocId digest cd.text_content l2 dt) = 1 := by
  have hne := derivedDocId_ne digest cd.text_content l1 l2 dt hname
  have spec1 := add_document_source_spec digest fs t l1 dt mods st0 cd hp1 hfs1 htext
  set s1 := (add_document_source digest fs t l1 dt mods st0).2.1 with hs1
  have spec2 := add_document_source_spec digest fs t l2 dt mods s1 cd hp2 hfs2 htext
  set s2 := (add_document_source digest fs t l2 dt mods s1).2.1 with hs2
  set doc1 := ingestDoc digest cd t l1 dt mods with hdoc1
  set doc2 := ingestDoc digest cd t l2 dt mods with hdoc2
  have hid1 : doc1.id = derivedDocId digest cd.text_content l1 dt := rfl
  have hid2 : doc2.id = derivedDocId digest cd.text_content l2 dt := rfl
  have hfr1 : st0.documents.any (fun p => p.1 == doc1.id) = false := by
    rw [Bool.eq_false_iff]
    intro hh
    exact hfresh1 ((any_key_iff _ _).mp (by rwa [hid1] at hh))
  have hkeys1 : s1.documents.map Prod.fst = st0.documents.map Prod.fst ++ [doc1.id] := by
    rw [spec1.2]
    exact addDocument_keys_fresh st0 doc1 hfr1
  have hfr2 : s1.documents.any (fun p => p.1 == doc2.id) = false := by
    rw [Bool.eq_false_iff]
    intro hh
    have hmem := (any_key_iff _ _).mp hh
    rw [hkeys1] at hmem
    rcases List.mem_append.mp hmem with h | h
    · exact hfresh2 ((hid2) ▸ h)
    · simp only [List.mem_singleton] at h
      exact hne (by rw [← hid1, ← hid2, h])
  have hnd1 : (s1.documents.map Prod.fst).Nodup := by
    rw [spec1.2]
    exact addDocument_nodup st0 doc1 hnd
  refine ⟨hne, spec1.1, spec2.1, ?_, ?_, ?_⟩
  · have h1 : docCount s2 = docCount (s1.addDocument doc2) := by
      unfold docCount
      rw [spec2.2]
    have h2 : docCount s1 = docCount (st0.addDocument doc1) := by
      unfold docCount
      rw [spec1.2]
    rw [h1, addDocument_count_fresh s1 doc2 hfr2, h2,
      addDocument_count_fresh st0 doc1 hfr1]
  · have h1 : countId s2 (derivedDocId digest cd.text_content l1 dt) =
        countId (s1.addDocument doc2) doc1.id := by
      unfold countId
      rw [spec2.2, hid1]
    rw [h1, countId_addDocument_fresh_other s1 doc2 doc1.id hfr2
      (by rw [hid1, hid2]; exact hne.symm)]
    have h2 : countId s1 doc1.id = countId (st0.addDocument doc1) doc1.id := by
      unfold countId
      rw [spec1.2]
    rw [h2]
    exact countId_addDocument_self st0 doc1 hnd
  · have h1 : countId s2 (derivedDocId digest cd.text_content l2 dt) =
        countId (s1.addDocument doc2) doc2.id := by
      unfold countId
      rw [spec2.2, hid2]
    rw [h1]
    exact countId_addDocument_self s1 doc2 hnd1

/-- Witness for C2 (amended): two local PDFs with distinct stems and
identical content produce two distinct ids and two records. -/
theorem C2_distinct_sources_amended_witness :
    extract_source_name "data/normes.pdf" ≠ extract_source_name "data/regles.pdf" ∧
    ("contenu identique du document" : String) ≠ "" ∧
    (derivedDocId digest0 "contenu identique du document" "data/normes.pdf"
        .INTERNAL_DOC ≠
      derivedDocId digest0 "contenu identique du document" "data/regles.pdf"
        .INTERNAL_DOC ∧
    (add_document_source digest0 fsC2b 0 "data/normes.pdf" .INTERNAL_DOC
      [.SPREAD] store0).1 = true ∧
    (add_document_source digest0 fsC2b 0 "data/regles.pdf" .INTERNAL_DOC [.SPREAD]
      (add_document_source digest0 fsC2b 0 "data/normes.pdf" .INTERNAL_DOC
        [.SPREAD] store0).2.1).1 = true ∧
    docCount (add_document_source digest0 fsC2b 0 "data/regles.pdf" .INTERNAL_DOC
        [.SPREAD]
        (add_document_source digest0 fsC2b 0 "data/normes.pdf" .INTERNAL_DOC
          [.SPREAD] store0).2.1).2.1 = docCount store0 + 2 ∧
    countId (add_document_source digest0 fsC2b 0 "data/regles.pdf" .INTERNAL_DOC
        [.SPREAD]
        (add_document_source digest0 fsC2b 0 "data/normes.pdf" .INTERNAL_DOC
          [.SPREAD] store0).2.1).2.1
      (derivedDocId digest0 "contenu identique du document" "data/normes.pdf"
        .INTERNAL_DOC) = 1 ∧
    countId (add_document_source digest0 fsC2b 0 "data/regles.pdf" .INTERNAL_DOC
        [.SPREAD]
        (add_document_source digest0 fsC2b 0 "data/normes.pdf" .INTERNAL_DOC
          [.SPREAD] store0).2.1).2.1
      (derivedDocId digest0 "contenu identique du document" "data/regles.pdf"
        .INTERNAL_DOC) = 1) :=
  ⟨by decide, by decide,
    C2_distinct_sources_amended digest0 fsC2b "data/normes.pdf" "data/regles.pdf"
      .INTERNAL_DOC [.SPREAD] store0 0
      { text_content := "contenu identique du document", metaTitle := none }
      (by decide) (by decide) (by decide) (by decide) (by decide) (by decide)
      (by decide) (by decide) (by decide)⟩

/-- Claim C6: a document tagged with N SCR modules whose text yields
exactly one accepted concept-pattern match produces exactly N concept
records, one per tagged module in order, all referencing the owning
document's id. -/
theorem C6_concept_fanout (doc : DocumentSource) (content : String) (now : Nat)
    (st : Store) (h : (acceptedMatches content).length = 1) :
    (auto_extract_concepts doc content now st).1.length = doc.scr_modules.length ∧
    (auto_extract_concepts doc content now st).1.map (fun c => c.scr_module) =
      doc.scr_modules ∧
    ∀ c ∈ (auto_extract_concepts doc content now st).1,
      c.source_document_id = some doc.id := by
  obtain ⟨cand, hcand⟩ := List.length_eq_one.mp h
  unfold auto_extract_concepts
  rw [hcand]
  simp only [List.foldl_cons, List.foldl_nil]
  have hspec := foldl_mineStep_spec doc cand now doc.scr_modules ([], st)
  refine ⟨?_, ?_, ?_⟩
  · have hlen := congrArg List.length hspec.1
    simpa using hlen
  · simpa using hspec.1
  · intro c hc
    rcases hspec.2 c hc with h1 | h1
    · exact absurd h1 (List.not_mem_nil c)
    · exact h1

/-- Witness for C6: a document tagged `{SPREAD, EQUITY}` with a text
matching one formula pattern yields exactly 2 concept records, one per
module, both referencing the document. -/
theorem C6_concept_fanout_witness :
    (acceptedMatches "SCR_spread = facteur de stress applique").length = 1 ∧
    (auto_extract_concepts docC6 "SCR_spread = facteur de stress applique" 0
      store0).1.length = 2 ∧
    (auto_extract_concepts docC6 "SCR_spread = facteur de stress applique" 0
      store0).1.map (fun c => c.scr_module) = [.SPREAD, .EQUITY] ∧
    ∀ c ∈ (auto_extract_concepts docC6 "SCR_spread = facteur de stress applique" 0
      store0).1, c.source_document_id = some "internal_doc_formules_00000000" := by
  have h : (acceptedMatches "SCR_spread = facteur de stress applique").length = 1 := by
    decide
  have hspec := C6_concept_fanout docC6 "SCR_spread = facteur de stress applique"
    0 store0 h
  exact ⟨h, hspec.1.trans rfl, hspec.2.1.trans rfl,
    fun c hc => (hspec.2.2 c hc).trans rfl⟩

/-- Claim C7: for a local (non-URL) locator whose file is missing (its
extraction raises), `add_document_source` returns failure, the store is
exactly as before, and no downstream component runs (no signal-extraction
or store-write event is emitted). -/
theorem C7_missing_file (digest : String → String) (fs : String → Option ContentData)
    (now : Nat) (l : String) (dt : DocumentType) (mods : List SCRModule) (st : Store)
    (_hlocal : isUrl l = false) (hmiss : fs l = none) :
    add_document_source digest fs now l dt mods st = (false, st, []) := by
  unfold add_document_source
  rcases _hcp : parserFor l with _ | k
  · rfl
  · rw [hmiss]

/-- Witness for C7: a missing local PDF path is rejected with the store
untouched and no pipeline event. -/
theorem C7_missing_file_witness :
    isUrl "data/missing.pdf" = false ∧
    (fun _ : String => (none : Option ContentData)) "data/missing.pdf" = none ∧
    add_document_source digest0 (fun _ => none) 0 "data/missing.pdf" .INTERNAL_DOC
      [.SPREAD] store0 = (false, store0, []) :=
  ⟨by decide, rfl,
    C7_missing_file digest0 (fun _ => none) 0 "data/missing.pdf" .INTERNAL_DOC
      [.SPREAD] store0 (by decide) rfl⟩

end SCR
